import Mathlib

/-!
# Verification of the VPR simulated-annealing placement engine core

A shallow embedding of the core routines of `vpr/src/place/place.cpp`
(simulated-annealing placer of VTR), together with theorems settling the
specification claims about them.

Modelling conventions:
* C++ `double`/`float` arithmetic is modelled over `ℚ`; transcendental
  library calls (`std::exp`, `sqrt`) are abstracted as function parameters,
  since the claims never depend on their numeric values, only on how the
  code composes them.
* The clustered netlist, delay model and criticality provider are external
  collaborators; they enter as function parameters (with a well-formedness
  structure capturing the interface contracts the spec lists in §6).
* `NaN` sentinels in the proposed (shadow) connection arrays are modelled
  as `Option ℚ` with `none` playing the role of the invalid marker, as the
  spec's design notes direct ("equivalent to `Option`, tests should rely
  only on an is-valid predicate").
* Machine integers (`int`, `size_t`) are modelled as `ℤ`/`ℕ`; no quantity
  in the verified region approaches overflow.
-/

namespace VtrPlace

/-- Result of a swap trial (`e_move_result` in place.cpp). -/
inductive MoveResult where
  | ACCEPTED
  | REJECTED
  | ABORTED
deriving DecidableEq, Repr

/-- Flag states of the per-net bounding-box update machine
(`NOT_UPDATED_YET`/`UPDATED_ONCE`/`GOT_FROM_SCRATCH` chars in place.cpp). -/
inductive BBState where
  | NOT_UPDATED_YET
  | UPDATED_ONCE
  | GOT_FROM_SCRATCH
deriving DecidableEq, Repr

/-- `struct t_bb`: bounding-box data (used both for coordinates and for
the per-edge pin counts). -/
structure t_bb where
  xmin : ℤ
  xmax : ℤ
  ymin : ℤ
  ymax : ℤ
deriving DecidableEq, Repr

/-- `#define SMALL_NET 4` — cut-off for incremental bounding box updates. -/
def SMALL_NET : ℕ := 4

/-- `#define ERROR_TOL .01` — relative error tolerance for cost checks. -/
def ERROR_TOL : ℚ := 0.01

/-- `#define MAX_MOVES_BEFORE_RECOMPUTE 500000`. -/
def MAX_MOVES_BEFORE_RECOMPUTE : ℕ := 500000

/-- Accumulated cost state (`struct t_placer_costs`). -/
structure t_placer_costs where
  cost : ℚ
  bb_cost : ℚ
  timing_cost : ℚ
deriving DecidableEq, Repr

/-! ## Metropolis acceptance: `assess_swap` (place.cpp:1699) -/

/-- `assess_swap(delta_c, t)`.  The C++ code draws `fnum = vtr::frand()`
(a fresh uniform sample) and computes `prob_fac = std::exp(-delta_c / t)`;
both the sample and the exponential are inputs here (`exp_fn` abstracts
`std::exp`). -/
def assess_swap (exp_fn : ℚ → ℚ) (delta_c t fnum : ℚ) : MoveResult :=
  if delta_c ≤ 0 then .ACCEPTED
  else if t = 0 then .REJECTED
  else if exp_fn (-delta_c / t) > fnum then .ACCEPTED
  else .REJECTED

/-! ## Range-limit update: `update_rlim` (place.cpp:1211) -/

/-- `update_rlim(&rlim, success_rat, grid)`:
`rlim = rlim * (1. - 0.44 + success_rat)`, then
`upper_lim = max(grid.width() - 1, grid.height() - 1)`,
`rlim = min(rlim, upper_lim)`, `rlim = max(rlim, 1.)`. -/
def update_rlim (rlim success_rat : ℚ) (width height : ℤ) : ℚ :=
  let r := rlim * (1 - 0.44 + success_rat)
  let upper_lim : ℚ := max ((width : ℚ) - 1) ((height : ℚ) - 1)
  max (min r upper_lim) 1

/-- `clamp(x, lo, hi)` as used by the spec's wording of the range-limit
update. -/
def clamp (lo hi x : ℚ) : ℚ := max lo (min x hi)

/-- The range-limit update exactly as the claim words it (spec side of the
refinement comparison): `rlim ← clamp(rlim * (1.56 - success_rat), 1,
max(W,H) - 1)`. -/
def update_rlim_claimed (rlim success_rat : ℚ) (width height : ℤ) : ℚ :=
  clamp 1 ((max width height : ℤ) - 1 : ℚ) (rlim * (1.56 - success_rat))

/-! ## Per-net wirelength cost: `cross_count`, `wirelength_crossing_count`,
`get_net_cost` (place.cpp:209, 2293, 2327) -/

/-- The 50-entry literal table `static const float cross_count[50]`
(expected crossing counts, ICCAD 94). -/
def cross_count : List ℚ :=
  [1.0, 1.0, 1.0, 1.0828, 1.1536, 1.2206, 1.2823, 1.3385, 1.3991, 1.4493, 1.4974,
   1.5455, 1.5937, 1.6418, 1.6899, 1.7304, 1.7709, 1.8114, 1.8519, 1.8924,
   1.9288, 1.9652, 2.0015, 2.0379, 2.0743, 2.1061, 2.1379, 2.1698, 2.2016,
   2.2334, 2.2646, 2.2958, 2.3271, 2.3583, 2.3895, 2.4187, 2.4479, 2.4772,
   2.5064, 2.5356, 2.5610, 2.5864, 2.6117, 2.6371, 2.6625, 2.6887, 2.7148,
   2.7410, 2.7671, 2.7933]

/-- `wirelength_crossing_count(fanout)`: `if (fanout > 50) return 2.7933 +
0.02616 * (fanout - 50); else return cross_count[fanout - 1];`.
(`fanout` is the net's total pin count; out-of-range table reads are
undefined behaviour in C++ and are given the harmless default 0 here —
every claim constrains the pin count to the defined range.) -/
def wirelength_crossing_count (fanout : ℕ) : ℚ :=
  if 50 < fanout then 2.7933 + 0.02616 * ((fanout : ℚ) - 50)
  else (cross_count.getD (fanout - 1) 0)

/-- `get_net_cost(net_id, bbptr)` (place.cpp:2327).  `num_pins` stands for
`cluster_ctx.clb_nlist.net_pins(net_id).size()`; `chanx`/`chany` are the
precomputed factor tables `chanx_place_cost_fac`/`chany_place_cost_fac`,
passed as functions of the two channel coordinates. -/
def get_net_cost (num_pins : ℕ) (chanx chany : ℤ → ℤ → ℚ) (bb : t_bb) : ℚ :=
  let crossing := wirelength_crossing_count num_pins
  ((bb.xmax - bb.xmin + 1 : ℤ) : ℚ) * crossing * chanx bb.ymax (bb.ymin - 1)
    + ((bb.ymax - bb.ymin + 1 : ℤ) : ℚ) * crossing * chany bb.xmax (bb.xmin - 1)

/-! ## `recompute_bb_cost` (place.cpp:1718) and
`recompute_costs_from_scratch` (place.cpp:1147) -/

/-- `recompute_bb_cost()`: walks every net and accumulates the committed
`net_cost[net_id]` of the non-ignored nets.  It reads nothing else: no
bounding box or per-net cost is recomputed from block positions (its only
inputs are the net list, the ignore flags and the committed `net_cost`
array). -/
def recompute_bb_cost (nets : List ℕ) (net_is_ignored : ℕ → Bool)
    (net_cost : ℕ → ℚ) : ℚ :=
  nets.foldl
    (fun cost net_id => if net_is_ignored net_id then cost else cost + net_cost net_id)
    0

/-- `sum_td_net_cost(net)` (place.cpp:2029): sums
`connection_timing_cost[net][ipin]` over sink indices `1 ≤ ipin < num_pins`. -/
def sum_td_net_cost (num_pins : ℕ) (ctc : ℕ → ℚ) : ℚ :=
  (List.range' 1 (num_pins - 1)).foldl (fun acc ipin => acc + ctc ipin) 0

/-- `comp_td_costs` (place.cpp:1977): from-scratch timing cost. For every
non-ignored net recompute each connection cost `criticality * delay`, total
per-net, then total over nets (hierarchical summation). -/
def comp_td_costs (nets : List ℕ) (net_is_ignored : ℕ → Bool)
    (num_pins : ℕ → ℕ) (crit delay : ℕ → ℕ → ℚ) : ℚ :=
  nets.foldl
    (fun acc net_id =>
      if net_is_ignored net_id then acc
      else acc + sum_td_net_cost (num_pins net_id) (fun ipin => crit net_id ipin * delay net_id ipin))
    0

/-- `recompute_costs_from_scratch` (place.cpp:1147).  `VPR_ERROR` aborts
placement; that is the `Except.error` branch.  On success the incremental
totals are replaced by the recomputed ones (and, for bounding-box-only
placement, `costs->cost` is re-anchored to the new `bb_cost`). -/
def recompute_costs_from_scratch (timing_driven : Bool)
    (nets : List ℕ) (net_is_ignored : ℕ → Bool) (net_cost : ℕ → ℚ)
    (num_pins : ℕ → ℕ) (crit delay : ℕ → ℕ → ℚ)
    (costs : t_placer_costs) : Except String t_placer_costs :=
  let new_bb_cost := recompute_bb_cost nets net_is_ignored net_cost
  if |new_bb_cost - costs.bb_cost| > costs.bb_cost * ERROR_TOL then
    .error "in recompute_costs_from_scratch: bb_cost mismatch"
  else
    let costs1 := { costs with bb_cost := new_bb_cost }
    if timing_driven then
      let new_timing_cost := comp_td_costs nets net_is_ignored num_pins crit delay
      if |new_timing_cost - costs1.timing_cost| > costs1.timing_cost * ERROR_TOL then
        .error "in recompute_costs_from_scratch: timing_cost mismatch"
      else .ok { costs1 with timing_cost := new_timing_cost }
    else .ok { costs1 with cost := new_bb_cost }

/-- One inner-loop trial's effect on `moves_since_cost_recompute`
(place.cpp:1129): `++moves_since_cost_recompute; if
(moves_since_cost_recompute > MAX_MOVES_BEFORE_RECOMPUTE) { recompute…;
moves_since_cost_recompute = 0; }`.  Returns the new counter and whether
`recompute_costs_from_scratch` was invoked on this trial. -/
def moves_recompute_step (moves_since_cost_recompute : ℕ) : ℕ × Bool :=
  let m := moves_since_cost_recompute + 1
  if MAX_MOVES_BEFORE_RECOMPUTE < m then (0, true) else (m, false)

/-- Counter value and number of `recompute_costs_from_scratch` invocations
after `k` inner-loop trials, starting from the fresh counter
(`moves_since_cost_recompute = 0` at the start of `try_place`). -/
def moves_recompute_trace : ℕ → ℕ × ℕ
  | 0 => (0, 0)
  | k + 1 =>
    let (c, fires) := moves_recompute_trace k
    let (c2, fired) := moves_recompute_step c
    (c2, fires + if fired then 1 else 0)

/-! ## Starting temperature: `get_std_dev` (place.cpp:1190) and
`starting_t` (place.cpp:1289) -/

/-- Annealing schedule selector (`e_sched_type`). -/
inductive SchedType where
  | USER_SCHED
  | AUTO_SCHED
  | DUSTY_SCHED
deriving DecidableEq, Repr

/-- The slice of `t_annealing_sched` that `starting_t` reads. -/
structure t_annealing_sched where
  type : SchedType
  init_t : ℚ
deriving DecidableEq, Repr

/-- `get_std_dev(n, sum_x_squared, av_x)` (place.cpp:1190): returns 0 for
`n <= 1`; otherwise computes `(sum_x_squared - n*av_x*av_x)/(n-1)` and
takes the square root only when the result is strictly positive (small
variances can round negative), returning 0 otherwise.  `sqrt_fn` abstracts
the C library `sqrt`. -/
def get_std_dev (sqrt_fn : ℚ → ℚ) (n : ℕ) (sum_x_squared av_x : ℚ) : ℚ :=
  let std_dev : ℚ :=
    if n ≤ 1 then 0 else (sum_x_squared - (n : ℚ) * av_x * av_x) / ((n : ℚ) - 1)
  if 0 < std_dev then sqrt_fn std_dev else 0

/-- `starting_t` (place.cpp:1289).  The `try_swap` calls (at temperature
`HUGE_POSITIVE_FLOAT`, with all their collaborators) are abstracted as the
sequence `trials`, giving for the `i`-th call its move result and the value
of `costs->cost` right after that call returned. -/
def starting_t (sqrt_fn : ℚ → ℚ) (annealing_sched : t_annealing_sched)
    (max_moves num_blocks : ℕ) (trials : ℕ → MoveResult × ℚ) : ℚ :=
  if annealing_sched.type = .USER_SCHED then annealing_sched.init_t
  else
    let move_lim := min max_moves num_blocks
    let acc :=
      (List.range move_lim).foldl
        (fun (acc : ℕ × ℚ × ℚ) i =>
          if (trials i).1 = .ACCEPTED then
            (acc.1 + 1, acc.2.1 + (trials i).2, acc.2.2 + (trials i).2 * (trials i).2)
          else acc)
        (0, 0, 0)
    let num_accepted := acc.1
    let sum_of_squares := acc.2.2
    let av := if num_accepted ≠ 0 then acc.2.1 / (num_accepted : ℚ) else 0
    20 * get_std_dev sqrt_fn num_accepted sum_of_squares av

/-! ## The swap trial's cost/acceptance skeleton: `try_swap`
(place.cpp:1392) -/

/-- The two cost deltas accumulated by
`find_affected_nets_and_update_costs` for a valid proposed move. -/
structure MoveDeltas where
  bb_delta_c : ℚ
  timing_delta_c : ℚ
deriving DecidableEq, Repr

/-- Outcome of `move_generator.propose_move` (`e_create_move`), carrying
the evaluated deltas of the proposed move when it is legal. -/
inductive CreateMove where
  | VALID (d : MoveDeltas)
  | ABORT
deriving DecidableEq, Repr

/-- `delta_c` as computed in `try_swap` (place.cpp:1477): the normalized
timing/bb combination for timing-driven placement, plain `bb_delta_c`
otherwise. -/
def compute_delta_c (timing_driven : Bool) (timing_tradeoff inv_bb inv_timing : ℚ)
    (d : MoveDeltas) : ℚ :=
  if timing_driven then
    (1 - timing_tradeoff) * d.bb_delta_c * inv_bb
      + timing_tradeoff * d.timing_delta_c * inv_timing
  else d.bb_delta_c

/-- The accept/reject/abort skeleton of `try_swap` (place.cpp:1392),
restricted to its effect on `costs`: on `ABORT` nothing changes; otherwise
`delta_c` is computed, `assess_swap` decides, and only an `ACCEPTED` move
adds the deltas into the cost accumulators. -/
def try_swap_costs (timing_driven : Bool) (timing_tradeoff inv_bb inv_timing : ℚ)
    (exp_fn : ℚ → ℚ) (t : ℚ) (cm : CreateMove) (fnum : ℚ)
    (costs : t_placer_costs) : MoveResult × t_placer_costs :=
  match cm with
  | .ABORT => (.ABORTED, costs)
  | .VALID d =>
    let delta_c := compute_delta_c timing_driven timing_tradeoff inv_bb inv_timing d
    match assess_swap exp_fn delta_c t fnum with
    | .ACCEPTED =>
      (.ACCEPTED,
        { costs with
          cost := costs.cost + delta_c
          bb_cost := costs.bb_cost + d.bb_delta_c
          timing_cost :=
            if timing_driven then costs.timing_cost + d.timing_delta_c
            else costs.timing_cost })
    | _ => (.REJECTED, costs)

/-- The quench (place.cpp:845, `state.t = 0 /* freeze out */`): a sequence
of trials all run at temperature 0; returns the final costs. -/
def quench_run (timing_driven : Bool) (timing_tradeoff inv_bb inv_timing : ℚ)
    (exp_fn : ℚ → ℚ) (trials : List (CreateMove × ℚ))
    (costs : t_placer_costs) : t_placer_costs :=
  trials.foldl
    (fun cs tr =>
      (try_swap_costs timing_driven timing_tradeoff inv_bb inv_timing exp_fn 0 tr.1 tr.2 cs).2)
    costs

/-! ## Bounding-box engine: `get_bb_from_scratch` (place.cpp:2210),
`get_non_updateable_bb` (place.cpp:2359), `update_bb` (place.cpp:2412)

The source traverses driver + sinks once, maintaining min/max and edge
counts for x and y; the two axes never interact, so the model factors the
traversal into one generic one-dimensional pass (`bb_scratch_1d`) applied
to each axis, and likewise one one-dimensional incremental updater
(`update_bb_1d`) covering the two mirrored `xnew < xold` / `xnew > xold`
blocks of the source for either axis. -/

/-- Clip an x pin coordinate to `[1, width - 2]`:
`x = max(min<int>(x, grid.width() - 2), 1)`. -/
def clipx (width x : ℤ) : ℤ := max (min x (width - 2)) 1

/-- Clip a y pin coordinate to `[1, height - 2]`. -/
def clipy (height y : ℤ) : ℤ := max (min y (height - 2)) 1

/-- One axis of a bounding box: extreme coordinates and the pin counts on
the two extreme edges (the x-fields, or the y-fields, of the `t_bb` pair
`(coords, num_on_edges)`). -/
structure BB1 where
  lo : ℤ
  hi : ℤ
  loE : ℤ
  hiE : ℤ
deriving DecidableEq, Repr

/-- The per-sink body of the `get_bb_from_scratch` loop (place.cpp:2253),
for one axis:
`if (x == xmin) xmin_edge++; if (x == xmax) xmax_edge++; else if (x < xmin)
{xmin = x; xmin_edge = 1;} else if (x > xmax) {xmax = x; xmax_edge = 1;}`. -/
def bb_scratch_step (s : BB1) (x : ℤ) : BB1 :=
  let s1 := if x = s.lo then { s with loE := s.loE + 1 } else s
  if x = s1.hi then { s1 with hiE := s1.hiE + 1 }
  else if x < s1.lo then { s1 with lo := x, loE := 1 }
  else if s1.hi < x then { s1 with hi := x, hiE := 1 }
  else s1

/-- One axis of `get_bb_from_scratch`: initialise from the driver pin
(both extremes at its coordinate, both edge counts 1), then run the sink
loop. -/
def bb_scratch_1d (x0 : ℤ) (xs : List ℤ) : BB1 :=
  xs.foldl bb_scratch_step ⟨x0, x0, 1, 1⟩

/-- The x-axis fields of a `(coords, num_on_edges)` pair of `t_bb`s. -/
def xview (coords edges : t_bb) : BB1 :=
  ⟨coords.xmin, coords.xmax, edges.xmin, edges.xmax⟩

/-- The y-axis fields of a `(coords, num_on_edges)` pair of `t_bb`s. -/
def yview (coords edges : t_bb) : BB1 :=
  ⟨coords.ymin, coords.ymax, edges.ymin, edges.ymax⟩

/-- Reassemble a `(coords, num_on_edges)` pair of `t_bb`s from its two
axis views. -/
def mk_bbs (x y : BB1) : t_bb × t_bb :=
  (⟨x.lo, x.hi, y.lo, y.hi⟩, ⟨x.loE, x.hiE, y.loE, y.hiE⟩)

/-- `get_bb_from_scratch(net_id, coords, num_on_edges)` (place.cpp:2210):
pin positions (already offset-adjusted) are clipped to the channel range
and folded into extremes with edge counts, starting from the driver pin. -/
def get_bb_from_scratch (width height : ℤ) (driver : ℤ × ℤ)
    (sinks : List (ℤ × ℤ)) : t_bb × t_bb :=
  mk_bbs
    (bb_scratch_1d (clipx width driver.1) (sinks.map fun p => clipx width p.1))
    (bb_scratch_1d (clipy height driver.2) (sinks.map fun p => clipy height p.2))

/-- The per-sink body of the `get_non_updateable_bb` loop (place.cpp:2385):
`if (x < xmin) xmin = x; else if (x > xmax) xmax = x;` and the same for y.
Accumulator is `((xmin, xmax), (ymin, ymax))`. -/
def nub_step (acc : (ℤ × ℤ) × (ℤ × ℤ)) (p : ℤ × ℤ) : (ℤ × ℤ) × (ℤ × ℤ) :=
  let xs := if p.1 < acc.1.1 then (p.1, acc.1.2)
    else if acc.1.2 < p.1 then (acc.1.1, p.1) else acc.1
  let ys := if p.2 < acc.2.1 then (p.2, acc.2.2)
    else if acc.2.2 < p.2 then (acc.2.1, p.2) else acc.2
  (xs, ys)

/-- `get_non_updateable_bb` (place.cpp:2359): bounding box only (no edge
counts), clipping applied once at the end. -/
def get_non_updateable_bb (width height : ℤ) (driver : ℤ × ℤ)
    (sinks : List (ℤ × ℤ)) : t_bb :=
  let acc := sinks.foldl nub_step ((driver.1, driver.1), (driver.2, driver.2))
  ⟨clipx width acc.1.1, clipx width acc.1.2, clipy height acc.2.1, clipy height acc.2.2⟩

/-- One axis of the incremental update in `update_bb` (place.cpp:2453):
given the clipped old and new coordinates of the moved pin and the current
axis state, either produce the updated axis state, or report `none` when
the moved pin was the sole pin on the extreme it leaves (the source then
recomputes from scratch). -/
def update_bb_1d (xold xnew : ℤ) (c : BB1) : Option BB1 :=
  if xnew < xold then
    if xold = c.hi ∧ c.hiE = 1 then none
    else
      let hi := c.hi
      let hiE := if xold = c.hi then c.hiE - 1 else c.hiE
      let lolo : ℤ × ℤ :=
        if xnew < c.lo then (xnew, 1)
        else if xnew = c.lo then (c.lo, c.loE + 1)
        else (c.lo, c.loE)
      some ⟨lolo.1, hi, lolo.2, hiE⟩
  else if xold < xnew then
    if xold = c.lo ∧ c.loE = 1 then none
    else
      let lo := c.lo
      let loE := if xold = c.lo then c.loE - 1 else c.loE
      let hihi : ℤ × ℤ :=
        if c.hi < xnew then (xnew, 1)
        else if xnew = c.hi then (c.hi, c.hiE + 1)
        else (c.hi, c.hiE)
      some ⟨lo, hihi.1, loE, hihi.2⟩
  else some c

/-- The per-net bounding-box state touched by `update_bb`: the
three-valued flag `bb_updated_before[net]`, the committed
`bb_coords[net]`/`bb_num_on_edges[net]`, and the trial scratch
`ts_bb_coord_new[net]`/`ts_bb_edge_new[net]`. -/
structure UpdBBState where
  bb_updated : BBState
  bb_coords : t_bb
  bb_num_on_edges : t_bb
  ts_bb_coord_new : t_bb
  ts_bb_edge_new : t_bb
deriving DecidableEq, Repr

/-- `update_bb` (place.cpp:2412).  `driver`/`sinks` are the net's
offset-adjusted pin positions as currently stored in the (already moved)
block locations — they are read only by the embedded
`get_bb_from_scratch` fallback, exactly as in the source.  A net already
marked `GOT_FROM_SCRATCH` is not touched again; a first update reads the
committed box, later updates read the in-progress `ts` box. -/
def update_bb (width height : ℤ) (driver : ℤ × ℤ) (sinks : List (ℤ × ℤ))
    (xold yold xnew ynew : ℤ) (s : UpdBBState) : UpdBBState :=
  let xn := clipx width xnew
  let yn := clipy height ynew
  let xo := clipx width xold
  let yo := clipy height yold
  if s.bb_updated = .GOT_FROM_SCRATCH then s
  else
    let curr_coord :=
      if s.bb_updated = .NOT_UPDATED_YET then s.bb_coords else s.ts_bb_coord_new
    let curr_edge :=
      if s.bb_updated = .NOT_UPDATED_YET then s.bb_num_on_edges else s.ts_bb_edge_new
    match update_bb_1d xo xn (xview curr_coord curr_edge) with
    | none =>
      let sc := get_bb_from_scratch width height driver sinks
      { s with ts_bb_coord_new := sc.1, ts_bb_edge_new := sc.2,
               bb_updated := .GOT_FROM_SCRATCH }
    | some rx =>
      match update_bb_1d yo yn (yview curr_coord curr_edge) with
      | none =>
        let sc := get_bb_from_scratch width height driver sinks
        { s with ts_bb_coord_new := sc.1, ts_bb_edge_new := sc.2,
                 bb_updated := .GOT_FROM_SCRATCH }
      | some ry =>
        let sc := mk_bbs rx ry
        { s with ts_bb_coord_new := sc.1, ts_bb_edge_new := sc.2,
                 bb_updated := .UPDATED_ONCE }

/-! ## Netlist interface and the per-trial state machine
(`find_affected_nets_and_update_costs`, place.cpp:1558, and the
commit/revert helpers) -/

/-- `PinType` of the clustered netlist. -/
inductive PinType where
  | DRIVER
  | SINK
deriving DecidableEq, Repr

/-- The clustered-netlist accessors used by the trial engine (spec §6);
pins, blocks and nets are natural-number ids. -/
structure Netlist where
  pin_net : ℕ → ℕ
  pin_block : ℕ → ℕ
  pin_type : ℕ → PinType
  pin_net_index : ℕ → ℕ
  net_pin : ℕ → ℕ → ℕ
  net_num_pins : ℕ → ℕ
  net_is_ignored : ℕ → Bool
  net_driver_block : ℕ → ℕ
  block_pins : ℕ → List ℕ

/-- Interface contracts of the clustered netlist (spec §6): sink indices
are 1-based within their net, `net_pin` and `(pin_net, pin_net_index)` are
mutually inverse, every net's index-0 pin is its unique driver, and block
pin lists are duplicate-free and consistent with `pin_block`. -/
structure NetlistWF (nl : Netlist) : Prop where
  net_pin_net : ∀ n i, i < nl.net_num_pins n → nl.pin_net (nl.net_pin n i) = n
  net_pin_index : ∀ n i, i < nl.net_num_pins n → nl.pin_net_index (nl.net_pin n i) = i
  pin_block_mem : ∀ b p, p ∈ nl.block_pins b → nl.pin_block p = b
  block_pins_nodup : ∀ b, (nl.block_pins b).Nodup
  driver_eq : ∀ p, nl.pin_type p = .DRIVER → nl.net_pin (nl.pin_net p) 0 = p
  driver_block_eq : ∀ n, nl.net_driver_block n = nl.pin_block (nl.net_pin n 0)
  sink_canonical : ∀ p, nl.pin_type p = .SINK →
    1 ≤ nl.pin_net_index p ∧ nl.pin_net_index p < nl.net_num_pins (nl.pin_net p) ∧
      nl.net_pin (nl.pin_net p) (nl.pin_net_index p) = p

/-- Pointwise update of a one-argument function. -/
def fupd {α : Type} (f : ℕ → α) (k : ℕ) (v : α) : ℕ → α :=
  fun a => if a = k then v else f a

/-- Pointwise update of a two-argument function. -/
def fupd2 {α : Type} (f : ℕ → ℕ → α) (k1 k2 : ℕ) (v : α) : ℕ → ℕ → α :=
  fun a b => if a = k1 ∧ b = k2 then v else f a b

/-- The mutable placer state a swap trial touches.  Proposed (shadow)
connection entries use `Option ℚ` with `none` for the `NaN` sentinel
(`INVALID_DELAY`); committed connection entries always hold numbers
between trials, so they stay plain `ℚ`. -/
structure TrialState where
  proposed_net_cost : ℕ → ℚ
  net_cost : ℕ → ℚ
  bbs : ℕ → UpdBBState
  ts_nets_to_update : List ℕ
  connection_delay : ℕ → ℕ → ℚ
  proposed_connection_delay : ℕ → ℕ → Option ℚ
  connection_timing_cost : ℕ → ℕ → ℚ
  proposed_connection_timing_cost : ℕ → ℕ → Option ℚ
  affected_pins : List ℕ
  timing_delta_c : ℚ
  bb_delta_c : ℚ
  timing_cost : ℚ

/-- `record_affected_net` (place.cpp:1611): first encounter
(`proposed_net_cost[net] < 0`) appends the net to `ts_nets_to_update` and
marks it by setting `proposed_net_cost[net] = 1`. -/
def record_affected_net (net : ℕ) (st : TrialState) : TrialState :=
  if st.proposed_net_cost net < 0 then
    { st with
      ts_nets_to_update := st.ts_nets_to_update ++ [net]
      proposed_net_cost := fupd st.proposed_net_cost net 1 }
  else st

/-- `driven_by_moved_block(net, blocks_affected)` (place.cpp:1894). -/
def driven_by_moved_block (nl : Netlist) (moved_blocks : List ℕ) (net : ℕ) : Bool :=
  moved_blocks.any fun b => nl.net_driver_block net = b

/-- The shared body of the two branches of `update_td_delta_costs`
(place.cpp:1666 and 1688): recompute one connection's proposed delay and
timing cost, accumulate the cost difference into the trial's timing delta,
and append the connection's sink pin to `affected_pins`. -/
def td_update_one (crit delay : ℕ → ℕ → ℚ) (net ipin sink_pin : ℕ)
    (st : TrialState) : TrialState :=
  let temp_delay := delay net ipin
  let new_cost := crit net ipin * temp_delay
  { st with
    proposed_connection_delay :=
      fupd2 st.proposed_connection_delay net ipin (some temp_delay)
    proposed_connection_timing_cost :=
      fupd2 st.proposed_connection_timing_cost net ipin (some new_cost)
    timing_delta_c := st.timing_delta_c + (new_cost - st.connection_timing_cost net ipin)
    affected_pins := st.affected_pins ++ [sink_pin] }

/-- `update_td_delta_costs` (place.cpp:1654).  `crit` is the criticality
provider; `delay` abstracts `comp_td_connection_delay` evaluated at the
already-applied block positions (both indexed by net and sink index). -/
def update_td_delta_costs (nl : Netlist) (crit delay : ℕ → ℕ → ℚ)
    (moved_blocks : List ℕ) (net pin : ℕ) (st : TrialState) : TrialState :=
  if nl.pin_type pin = .DRIVER then
    (List.range' 1 (nl.net_num_pins net - 1)).foldl
      (fun st ipin => td_update_one crit delay net ipin (nl.net_pin net ipin) st) st
  else
    if driven_by_moved_block nl moved_blocks net then st
    else td_update_one crit delay net (nl.pin_net_index pin) pin st

/-- The collaborator data a trial needs (device geometry, pin positions,
timing collaborators, cost-factor tables, options and the proposed move's
block set).  `locs net` is the net's (driver, sinks) offset-adjusted pin
positions after `apply_move_blocks`; `old_pos`/`new_pos` give a moved
pin's offset-adjusted position before/after the move. -/
structure TrialParams where
  nl : Netlist
  width : ℤ
  height : ℤ
  locs : ℕ → (ℤ × ℤ) × List (ℤ × ℤ)
  old_pos : ℕ → ℤ × ℤ
  new_pos : ℕ → ℤ × ℤ
  crit : ℕ → ℕ → ℚ
  delay : ℕ → ℕ → ℚ
  chanx : ℤ → ℤ → ℚ
  chany : ℤ → ℤ → ℚ
  timing_driven : Bool
  moved_blocks : List ℕ

/-- `update_net_bb` (place.cpp:1623): small nets (`fanout < SMALL_NET`)
get a brute-force coordinate recompute, once per net; large nets get the
incremental `update_bb` with the moved pin's old and new positions. -/
def update_net_bb (P : TrialParams) (net pin : ℕ) (st : TrialState) : TrialState :=
  if P.nl.net_num_pins net - 1 < SMALL_NET then
    if (st.bbs net).bb_updated = .NOT_UPDATED_YET then
      { st with
        bbs := fupd st.bbs net
          { st.bbs net with
            ts_bb_coord_new :=
              get_non_updateable_bb P.width P.height (P.locs net).1 (P.locs net).2 } }
    else st
  else
    { st with
      bbs := fupd st.bbs net
        (update_bb P.width P.height (P.locs net).1 (P.locs net).2
          (P.old_pos pin).1 (P.old_pos pin).2 (P.new_pos pin).1 (P.new_pos pin).2
          (st.bbs net)) }

/-- The per-pin body of the moved-block loop in
`find_affected_nets_and_update_costs` (place.cpp:1575): ignored nets are
skipped; otherwise the net is recorded, its bounding box updated, and (for
timing-driven placement) the timing deltas of the touched connections
recomputed. -/
def process_pin (P : TrialParams) (st : TrialState) (pin : ℕ) : TrialState :=
  let net := P.nl.pin_net pin
  if P.nl.net_is_ignored net then st
  else
    let st1 := record_affected_net net st
    let st2 := update_net_bb P net pin st1
    if P.timing_driven then
      update_td_delta_costs P.nl P.crit P.delay P.moved_blocks net pin st2
    else st2

/-- The nested moved-blocks/pins loop of
`find_affected_nets_and_update_costs` (place.cpp:1571). -/
def process_blocks (P : TrialParams) (st : TrialState) : TrialState :=
  P.moved_blocks.foldl
    (fun st b => (P.nl.block_pins b).foldl (process_pin P) st) st

/-- The final loop of `find_affected_nets_and_update_costs`
(place.cpp:1601): once per affected net, compute the proposed net cost
from the new bounding box and accumulate the cost change. -/
def bb_cost_loop (P : TrialParams) (st : TrialState) : TrialState :=
  st.ts_nets_to_update.foldl
    (fun st net =>
      let newc := get_net_cost (P.nl.net_num_pins net) P.chanx P.chany
        (st.bbs net).ts_bb_coord_new
      { st with
        proposed_net_cost := fupd st.proposed_net_cost net newc
        bb_delta_c := st.bb_delta_c + (newc - st.net_cost net) })
    st

/-- `find_affected_nets_and_update_costs` (place.cpp:1558). -/
def find_affected_nets_and_update_costs (P : TrialParams) (st : TrialState) :
    TrialState :=
  bb_cost_loop P (process_blocks P st)

/-- The body of `update_move_nets` (place.cpp:1365) for one affected net:
commit the proposed box (edge counts only for large nets) and the proposed
net cost, then quiesce the markers. -/
def update_move_net_one (P : TrialParams) (st : TrialState) (net : ℕ) : TrialState :=
  let u := st.bbs net
  { st with
    bbs := fupd st.bbs net
      { u with
        bb_coords := u.ts_bb_coord_new
        bb_num_on_edges :=
          if SMALL_NET ≤ P.nl.net_num_pins net - 1 then u.ts_bb_edge_new
          else u.bb_num_on_edges
        bb_updated := .NOT_UPDATED_YET }
    net_cost := fupd st.net_cost net (st.proposed_net_cost net)
    proposed_net_cost := fupd st.proposed_net_cost net (-1) }

/-- `update_move_nets(num_nets_affected)` (place.cpp:1365). -/
def update_move_nets (P : TrialParams) (st : TrialState) : TrialState :=
  st.ts_nets_to_update.foldl (update_move_net_one P) st

/-- `reset_move_nets(num_nets_affected)` (place.cpp:1383): restore the
sentinel `-1` and `NOT_UPDATED_YET` for every affected net. -/
def reset_move_nets (st : TrialState) : TrialState :=
  st.ts_nets_to_update.foldl
    (fun st net =>
      { st with
        proposed_net_cost := fupd st.proposed_net_cost net (-1)
        bbs := fupd st.bbs net { st.bbs net with bb_updated := .NOT_UPDATED_YET } })
    st

/-- The per-connection body of `commit_td_cost` (place.cpp:1817): copy the
proposed delay and timing cost into the committed arrays and reset the
proposed entries to the invalid sentinel.  The `getD 0` default is never
reached in a trial started from quiesced markers — the committed copy
always reads an entry the update phase filled (copying the sentinel would
be a placer bug). -/
def commit_td_pin (st : TrialState) (net ipin : ℕ) : TrialState :=
  { st with
    connection_delay := fupd2 st.connection_delay net ipin
      ((st.proposed_connection_delay net ipin).getD 0)
    proposed_connection_delay := fupd2 st.proposed_connection_delay net ipin none
    connection_timing_cost := fupd2 st.connection_timing_cost net ipin
      ((st.proposed_connection_timing_cost net ipin).getD 0)
    proposed_connection_timing_cost :=
      fupd2 st.proposed_connection_timing_cost net ipin none }

/-- The per-pin body of the `commit_td_cost` loop (place.cpp:1806): same
net classification as the update phase — a driver pin commits every sink
connection of its net, a sink pin whose driver also moved is skipped, any
other sink pin commits its own connection. -/
def commit_td_one (nl : Netlist) (moved_blocks : List ℕ) (st : TrialState)
    (pin : ℕ) : TrialState :=
  let net := nl.pin_net pin
  if nl.net_is_ignored net then st
  else if nl.pin_type pin = .DRIVER then
    (List.range' 1 (nl.net_num_pins net - 1)).foldl
      (fun st ipin => commit_td_pin st net ipin) st
  else if driven_by_moved_block nl moved_blocks net then st
  else commit_td_pin st net (nl.pin_net_index pin)

/-- `commit_td_cost(blocks_affected)` (place.cpp:1802): walk the moved
blocks' pins again, committing each recomputed connection. -/
def commit_td_cost (nl : Netlist) (moved_blocks : List ℕ) (st : TrialState) :
    TrialState :=
  moved_blocks.foldl
    (fun st b => (nl.block_pins b).foldl (commit_td_one nl moved_blocks) st)
    st

/-- Modelled from the spec: the body of `revert_td_cost` (place.cpp:1843)
is compiled only under `VTR_ASSERT_SAFE_ENABLED`; that macro's definition
(`vtr_assert.h`) is not part of the provided sources.  Following the
spec's §4.3 Revert contract: "For every pin in `affected_pins`:
`D'[net][s] ← NaN`; `C'[net][s] ← NaN`.  No change to committed arrays.
`timing_cost` unchanged." -/
def revert_td_cost (nl : Netlist) (st : TrialState) : TrialState :=
  st.affected_pins.foldl
    (fun st pin =>
      { st with
        proposed_connection_delay :=
          fupd2 st.proposed_connection_delay (nl.pin_net pin) (nl.pin_net_index pin) none
        proposed_connection_timing_cost :=
          fupd2 st.proposed_connection_timing_cost (nl.pin_net pin) (nl.pin_net_index pin) none })
    st

/-- The ACCEPTED branch of `try_swap` (place.cpp:1491) restricted to the
modelled state: add the timing delta into the committed total and commit
the per-connection shadows (timing-driven only), then commit the net
costs/boxes and quiesce the markers. -/
def try_swap_commit (P : TrialParams) (st : TrialState) : TrialState :=
  let st1 :=
    if P.timing_driven then
      { commit_td_cost P.nl P.moved_blocks st with
        timing_cost := st.timing_cost + st.timing_delta_c }
    else st
  update_move_nets P st1

/-- The rejected branch of `try_swap` (place.cpp:1516): reset the affected
net markers and revert the timing shadows (timing-driven only). -/
def try_swap_revert (P : TrialParams) (st : TrialState) : TrialState :=
  let st1 := reset_move_nets st
  if P.timing_driven then revert_td_cost P.nl st1 else st1

/-- The marker quiescence invariant the spec's §5 Ordering contract
demands at every trial boundary. -/
def markers_quiesced (st : TrialState) : Prop :=
  (∀ n, st.proposed_net_cost n = -1) ∧
  (∀ n, (st.bbs n).bb_updated = .NOT_UPDATED_YET) ∧
  (∀ n i, st.proposed_connection_delay n i = none) ∧
  (∀ n i, st.proposed_connection_timing_cost n i = none)

/-- The (net id, sink index) pairs addressed by a pin list. -/
def TdPairs (nl : Netlist) (pins : List ℕ) : List (ℕ × ℕ) :=
  pins.map fun p => (nl.pin_net p, nl.pin_net_index p)

/-- The committed placer state (committed connection arrays, committed net
costs and boxes, committed timing total) agrees between two trial states. -/
def committed_eq (st0 st : TrialState) : Prop :=
  st.connection_delay = st0.connection_delay ∧
  st.connection_timing_cost = st0.connection_timing_cost ∧
  st.net_cost = st0.net_cost ∧
  st.timing_cost = st0.timing_cost ∧
  ∀ n, (st.bbs n).bb_coords = (st0.bbs n).bb_coords ∧
    (st.bbs n).bb_num_on_edges = (st0.bbs n).bb_num_on_edges

/-- Pin `p`, when walked by `commit_td_cost`, commits connection
`(n, i)`: it is a pin of the non-ignored net `n` and is either the net's
driver (then every sink index of `n` is committed) or a sink with index
`i` whose driver block did not move. -/
def PinCommits (nl : Netlist) (moved : List ℕ) (p n i : ℕ) : Prop :=
  nl.pin_net p = n ∧ nl.net_is_ignored n = false ∧
  ((nl.pin_type p = .DRIVER ∧ 1 ≤ i ∧ i < nl.net_num_pins n) ∨
   (nl.pin_type p ≠ .DRIVER ∧ driven_by_moved_block nl moved n = false ∧
     nl.pin_net_index p = i))

/-- Connection `(n, i)` is one that the `commit_td_cost` walk over the
moved blocks' pins commits. -/
def CommitCovers (nl : Netlist) (moved : List ℕ) (n i : ℕ) : Prop :=
  ∃ b ∈ moved, ∃ p ∈ nl.block_pins b, PinCommits nl moved p n i

/-- Invariant of the affected-net walk used for the marker-quiescence
claim: the committed state is untouched, unrecorded nets keep their
sentinel markers, and every modified shadow entry is addressed both by a
pin in `affected_pins` and by the commit walk. -/
def C4Inv (nl : Netlist) (moved : List ℕ) (st0 st : TrialState) : Prop :=
  committed_eq st0 st ∧
  (∀ n, n ∉ st.ts_nets_to_update →
    st.proposed_net_cost n = st0.proposed_net_cost n ∧
    (st.bbs n).bb_updated = (st0.bbs n).bb_updated) ∧
  (∀ n i, (st.proposed_connection_delay n i ≠ st0.proposed_connection_delay n i ∨
      st.proposed_connection_timing_cost n i ≠ st0.proposed_connection_timing_cost n i) →
    (∃ p ∈ st.affected_pins, nl.pin_net p = n ∧ nl.pin_net_index p = i) ∧
      CommitCovers nl moved n i)

/-- Invariant of the affected-net walk used for the timing-delta claim,
after processing the pins in `processed`: the `(net, sink)` pairs of
`affected_pins` are duplicate-free, the accumulated delta is the sum of
the per-connection differences (each counted once), every affected pin's
shadow cost holds the recomputed `criticality * delay`, affected pins are
canonical sinks of their nets, and each one got there either through its
net's moved driver or as a sink whose driver block did not move. -/
def TdInv (nl : Netlist) (crit delay : ℕ → ℕ → ℚ) (moved processed : List ℕ)
    (st0 st : TrialState) : Prop :=
  (TdPairs nl st.affected_pins).Nodup ∧
  st.connection_timing_cost = st0.connection_timing_cost ∧
  st.timing_delta_c = st0.timing_delta_c +
    (st.affected_pins.map fun p =>
      crit (nl.pin_net p) (nl.pin_net_index p) * delay (nl.pin_net p) (nl.pin_net_index p)
        - st0.connection_timing_cost (nl.pin_net p) (nl.pin_net_index p)).sum ∧
  (∀ p ∈ st.affected_pins,
    st.proposed_connection_timing_cost (nl.pin_net p) (nl.pin_net_index p)
      = some (crit (nl.pin_net p) (nl.pin_net_index p)
          * delay (nl.pin_net p) (nl.pin_net_index p))) ∧
  (∀ p ∈ st.affected_pins,
    nl.net_pin (nl.pin_net p) (nl.pin_net_index p) = p ∧
    1 ≤ nl.pin_net_index p ∧
    nl.pin_net_index p < nl.net_num_pins (nl.pin_net p)) ∧
  (∀ p ∈ st.affected_pins,
    (driven_by_moved_block nl moved (nl.pin_net p) = true ∧
      nl.net_pin (nl.pin_net p) 0 ∈ processed) ∨
    (driven_by_moved_block nl moved (nl.pin_net p) = false ∧ p ∈ processed))

/-- The meaning of a one-axis bounding-box state with edge counts: `lo` and
`hi` bound every pin coordinate of the multiset and occur in it, and the
edge counts are the multiplicities of the two extremes. -/
def bb1_describes (s : BB1) (m : Multiset ℤ) : Prop :=
  (∀ x ∈ m, s.lo ≤ x ∧ x ≤ s.hi) ∧ s.lo ∈ m ∧ s.hi ∈ m ∧
    s.loE = (m.count s.lo : ℤ) ∧ s.hiE = (m.count s.hi : ℤ)

/-- Standard deviation of a sample list as the spec describes it: 0 for
`n ≤ 1` samples, otherwise the guarded `(Σx² - n·avg²)/(n-1)` with
non-positive variances clamped to 0 before the square root.  (For an empty
list the average term is `sum / 0 = 0`, matching the code's
`num_accepted == 0` branch.) -/
def spec_std_dev (sqrt_fn : ℚ → ℚ) (xs : List ℚ) : ℚ :=
  let n := xs.length
  let avg := xs.sum / (n : ℚ)
  let var := ((xs.map fun x => x * x).sum - (n : ℚ) * avg * avg) / ((n : ℚ) - 1)
  if n ≤ 1 then 0 else if 0 < var then sqrt_fn var else 0

/-- A concrete trial sequence (every `try_swap` call accepts and leaves
`costs->cost` at 2), used to evaluate `starting_t` at a concrete input. -/
def const_trials : ℕ → MoveResult × ℚ := fun _ => (.ACCEPTED, 2)

/-- A concrete per-net state for evaluating `update_bb`: a five-pin net on
a 10×10 grid whose committed box is its from-scratch box and whose trial
scratch entries are stale zeros. -/
def wit_bb_state : UpdBBState :=
  { bb_updated := .NOT_UPDATED_YET
    bb_coords := (get_bb_from_scratch 10 10 (1, 1) [(3, 3), (5, 5), (2, 4), (4, 2)]).1
    bb_num_on_edges := (get_bb_from_scratch 10 10 (1, 1) [(3, 3), (5, 5), (2, 4), (4, 2)]).2
    ts_bb_coord_new := ⟨0, 0, 0, 0⟩
    ts_bb_edge_new := ⟨0, 0, 0, 0⟩ }

/-- The same concrete net already recomputed from scratch in this trial. -/
def wit_bb_state2 : UpdBBState :=
  { wit_bb_state with bb_updated := .GOT_FROM_SCRATCH }

/-- A concrete two-pin netlist for evaluating the trial engine: pin 0 is
the driver of net 0 on block 0, pin 1 is net 0's sink (index 1) on
block 1; every pin `p ≥ 2` is the driver of its own sinkless net `p` and
belongs to no block's pin list. -/
def wit_nl : Netlist where
  pin_net := fun p => if p ≤ 1 then 0 else p
  pin_block := fun p => p
  pin_type := fun p => if p = 1 then .SINK else .DRIVER
  pin_net_index := fun p => if p ≤ 1 then p else 0
  net_pin := fun n i => if n = 0 then i else n
  net_num_pins := fun n => if n = 0 then 2 else 0
  net_is_ignored := fun _ => false
  net_driver_block := fun n => n
  block_pins := fun b => if b = 0 then [0] else if b = 1 then [1] else []

/-- Concrete trial collaborators over `wit_nl`: a timing-driven move of
block 0 on a 10×10 grid with constant unit collaborators. -/
def wit_P : TrialParams where
  nl := wit_nl
  width := 10
  height := 10
  locs := fun _ => ((1, 1), [(2, 2)])
  old_pos := fun _ => (1, 1)
  new_pos := fun _ => (2, 2)
  crit := fun _ _ => 1
  delay := fun _ _ => 1
  chanx := fun _ _ => 1
  chany := fun _ _ => 1
  timing_driven := true
  moved_blocks := [0]

/-- A concrete quiesced trial state: all markers at their sentinels, all
committed entries zero. -/
def wit_st0 : TrialState where
  proposed_net_cost := fun _ => -1
  net_cost := fun _ => 0
  bbs := fun _ =>
    { bb_updated := .NOT_UPDATED_YET
      bb_coords := ⟨1, 1, 1, 1⟩
      bb_num_on_edges := ⟨1, 1, 1, 1⟩
      ts_bb_coord_new := ⟨0, 0, 0, 0⟩
      ts_bb_edge_new := ⟨0, 0, 0, 0⟩ }
  ts_nets_to_update := []
  connection_delay := fun _ _ => 0
  proposed_connection_delay := fun _ _ => none
  connection_timing_cost := fun _ _ => 0
  proposed_connection_timing_cost := fun _ _ => none
  affected_pins := []
  timing_delta_c := 0
  bb_delta_c := 0
  timing_cost := 0

/-! # Theorems -/

/-! ## C1: the Metropolis acceptance law -/

/-- C1.  For every call to `assess_swap(delta_c, t)`: if `delta_c ≤ 0` the
result is `ACCEPTED`; otherwise, if `t == 0` the result is `REJECTED`;
otherwise the result is `ACCEPTED` iff `exp(-delta_c / t)` is strictly
greater than the fresh uniform sample drawn for that call, and `REJECTED`
otherwise. -/
theorem assess_swap_spec (exp_fn : ℚ → ℚ) (delta_c t fnum : ℚ) :
    (delta_c ≤ 0 → assess_swap exp_fn delta_c t fnum = .ACCEPTED) ∧
    (0 < delta_c → t = 0 → assess_swap exp_fn delta_c t fnum = .REJECTED) ∧
    (0 < delta_c → t ≠ 0 →
      ((assess_swap exp_fn delta_c t fnum = .ACCEPTED ↔ fnum < exp_fn (-delta_c / t)) ∧
       (assess_swap exp_fn delta_c t fnum = .REJECTED ↔ ¬ fnum < exp_fn (-delta_c / t)))) := by
  unfold assess_swap
  refine ⟨fun h => by simp [h], fun h1 h2 => by simp [not_le.mpr h1, h2], fun h1 h2 => ?_⟩
  by_cases hgt : exp_fn (-delta_c / t) > fnum <;>
    simp [not_le.mpr h1, h2, hgt]

/-- Witness for C1 at concrete inputs. -/
theorem assess_swap_spec_witness :
    assess_swap id (-1) 0 0 = .ACCEPTED ∧
    assess_swap id 1 0 0 = .REJECTED ∧
    (assess_swap id 1 2 0 = .ACCEPTED ↔ (0 : ℚ) < id (-1 / 2)) :=
  ⟨(assess_swap_spec id (-1) 0 0).1 (by norm_num),
   (assess_swap_spec id 1 0 0).2.1 (by norm_num) rfl,
   ((assess_swap_spec id 1 2 0).2.2 (by norm_num) (by norm_num)).1⟩

/-! ## C3: the per-net wirelength cost formula -/

/-- C3.  For every net with bounding box `(xmin, ymin, xmax, ymax)`,
`get_net_cost` returns
`(xmax-xmin+1) * crossing * chanx_place_cost_fac[ymax][ymin-1]
 + (ymax-ymin+1) * crossing * chany_place_cost_fac[xmax][xmin-1]`,
where `crossing` is the 50-entry literal table `cross_count` indexed at
`pin count - 1` when the pin count is between 1 and 50, and
`2.7933 + 0.02616 * (pin count - 50)` when it exceeds 50. -/
theorem get_net_cost_spec (num_pins : ℕ) (chanx chany : ℤ → ℤ → ℚ) (bb : t_bb) :
    (1 ≤ num_pins → num_pins ≤ 50 →
      get_net_cost num_pins chanx chany bb =
        ((bb.xmax - bb.xmin + 1 : ℤ) : ℚ) * cross_count.getD (num_pins - 1) 0
            * chanx bb.ymax (bb.ymin - 1)
          + ((bb.ymax - bb.ymin + 1 : ℤ) : ℚ) * cross_count.getD (num_pins - 1) 0
            * chany bb.xmax (bb.xmin - 1)) ∧
    (50 < num_pins →
      get_net_cost num_pins chanx chany bb =
        ((bb.xmax - bb.xmin + 1 : ℤ) : ℚ) * (2.7933 + 0.02616 * ((num_pins : ℚ) - 50))
            * chanx bb.ymax (bb.ymin - 1)
          + ((bb.ymax - bb.ymin + 1 : ℤ) : ℚ) * (2.7933 + 0.02616 * ((num_pins : ℚ) - 50))
            * chany bb.xmax (bb.xmin - 1)) := by
  constructor
  · intro _ h50
    unfold get_net_cost wirelength_crossing_count
    rw [if_neg (by omega)]
  · intro h50
    unfold get_net_cost wirelength_crossing_count
    rw [if_pos h50]

/-- Witness for C3: a 4-pin net (table entry `1.0828`) and a 51-pin net
(extrapolated crossing). -/
theorem get_net_cost_spec_witness :
    (get_net_cost 4 (fun _ _ => (1 : ℚ)) (fun _ _ => 1) ⟨1, 3, 1, 2⟩ =
      ((3 - 1 + 1 : ℤ) : ℚ) * cross_count.getD (4 - 1) 0 * 1
        + ((2 - 1 + 1 : ℤ) : ℚ) * cross_count.getD (4 - 1) 0 * 1) ∧
    (get_net_cost 51 (fun _ _ => (1 : ℚ)) (fun _ _ => 1) ⟨1, 3, 1, 2⟩ =
      ((3 - 1 + 1 : ℤ) : ℚ) * (2.7933 + 0.02616 * ((51 : ℚ) - 50)) * 1
        + ((2 - 1 + 1 : ℤ) : ℚ) * (2.7933 + 0.02616 * ((51 : ℚ) - 50)) * 1) :=
  ⟨(get_net_cost_spec 4 _ _ _).1 (by norm_num) (by norm_num),
   (get_net_cost_spec 51 _ _ _).2 (by norm_num)⟩

/-! ## C6: the range-limit update -/

/-- C6 counterexample.  The claim says
`rlim ← clamp(rlim * (1.56 - success_rat), 1, max(W,H)-1)`; the code
multiplies by `1 - 0.44 + success_rat = 0.56 + success_rat`.  At
`rlim = 2`, `success_rat = 0` on a 10×10 grid the code yields `1.12`
while the claimed formula yields `3.12`. -/
theorem update_rlim_counterexample :
    update_rlim 2 0 10 10 ≠ update_rlim_claimed 2 0 10 10 := by
  norm_num [update_rlim, update_rlim_claimed, clamp]

/-- C6 amended.  After the statistics of each outer iteration the range
limit is updated as
`rlim ← clamp(rlim * (0.56 + success_rat), 1, max(W,H) - 1)` (the code's
multiplier is `1 - 0.44 + success_rat`, not `1.56 - success_rat`). -/
theorem update_rlim_amended (rlim success_rat : ℚ) (width height : ℤ) :
    update_rlim rlim success_rat width height =
      clamp 1 ((max width height : ℤ) - 1 : ℚ) (rlim * (0.56 + success_rat)) := by
  have h1 : (1 : ℚ) - 0.44 + success_rat = 0.56 + success_rat := by norm_num
  have h2 : ((max width height : ℤ) : ℚ) - 1 = max ((width : ℚ) - 1) ((height : ℚ) - 1) := by
    push_cast
    exact (max_sub_sub_right _ _ _).symm
  simp only [update_rlim, clamp]
  rw [h1, h2]
  exact max_comm _ _

/-! ## C10: `recompute_bb_cost` sums the committed per-net costs -/

/-- The conditional fold of `recompute_bb_cost` accumulates exactly the
committed costs of the non-ignored nets. -/
theorem recompute_bb_cost_foldl (net_is_ignored : ℕ → Bool) (net_cost : ℕ → ℚ) :
    ∀ (nets : List ℕ) (acc : ℚ),
      nets.foldl
          (fun cost net_id =>
            if net_is_ignored net_id then cost else cost + net_cost net_id) acc
        = acc + ((nets.filter fun n => !net_is_ignored n).map net_cost).sum := by
  intro nets
  induction nets with
  | nil => simp
  | cons a l ih =>
    intro acc
    by_cases h : net_is_ignored a <;>
      simp [List.filter_cons, h, ih, add_assoc, add_comm, add_left_comm]

/-- C10.  `recompute_bb_cost` returns exactly the sum of the committed
per-net costs `net_cost[n]` over the non-ignored nets.  It is a pure
function of the net list, the ignore flags and the committed `net_cost`
array alone — no bounding box and no per-net cost is recomputed from
block positions, so the periodic re-anchoring of `bb_cost` removes drift
only in the accumulated total. -/
theorem recompute_bb_cost_spec (nets : List ℕ) (net_is_ignored : ℕ → Bool)
    (net_cost : ℕ → ℚ) :
    recompute_bb_cost nets net_is_ignored net_cost
      = ((nets.filter fun n => !net_is_ignored n).map net_cost).sum := by
  unfold recompute_bb_cost
  simpa using recompute_bb_cost_foldl net_is_ignored net_cost nets 0

/-! ## C7: the periodic from-scratch recompute -/

/-- Before the counter has ever exceeded `MAX_MOVES_BEFORE_RECOMPUTE`,
each trial just increments it and no recompute fires. -/
theorem moves_recompute_trace_le (k : ℕ) (hk : k ≤ MAX_MOVES_BEFORE_RECOMPUTE) :
    moves_recompute_trace k = (k, 0) := by
  induction k with
  | zero => rfl
  | succ n ih =>
    have hn : moves_recompute_trace n = (n, 0) := ih (Nat.le_of_succ_le hk)
    simp [moves_recompute_trace, hn, moves_recompute_step, Nat.not_lt.mpr hk]

/-- C7 counterexample.  The claim says `recompute_costs_from_scratch` is
called every `MAX_MOVES_BEFORE_RECOMPUTE = 500000` trials; in the code the
counter is incremented first and compared with `>`, so after exactly
500000 trials from a fresh counter no recompute has happened (the first
one fires on trial 500001). -/
theorem recompute_period_counterexample :
    (moves_recompute_trace MAX_MOVES_BEFORE_RECOMPUTE).2 = 0 ∧
    (moves_recompute_trace (MAX_MOVES_BEFORE_RECOMPUTE + 1)).2 = 1 := by
  constructor
  · rw [moves_recompute_trace_le MAX_MOVES_BEFORE_RECOMPUTE le_rfl]
  · rw [moves_recompute_trace]
    rw [moves_recompute_trace_le MAX_MOVES_BEFORE_RECOMPUTE le_rfl]
    simp [moves_recompute_step]

/-- C7 amended.  The inner loop calls `recompute_costs_from_scratch` on
exactly the trials where the incremented counter exceeds
`MAX_MOVES_BEFORE_RECOMPUTE = 500000` (i.e. every 500001 trials), and the
counter is then reset; the recompute itself recomputes `bb_cost` (and, for
timing-driven placement, `timing_cost`) from scratch, raises a fatal
placement error if a recomputed value differs from the incrementally
maintained value by more than `ERROR_TOL = 0.01` relative to the
incremental value, and otherwise replaces the incremental totals with the
recomputed ones. -/
theorem recompute_costs_from_scratch_spec
    (c : ℕ) (timing_driven : Bool) (nets : List ℕ) (ign : ℕ → Bool)
    (net_cost : ℕ → ℚ) (num_pins : ℕ → ℕ) (crit delay : ℕ → ℕ → ℚ)
    (costs : t_placer_costs) :
    ((moves_recompute_step c).2 = true ↔ MAX_MOVES_BEFORE_RECOMPUTE < c + 1) ∧
    ((moves_recompute_step c).2 = true → (moves_recompute_step c).1 = 0) ∧
    (|recompute_bb_cost nets ign net_cost - costs.bb_cost| > costs.bb_cost * ERROR_TOL →
      ∃ msg, recompute_costs_from_scratch timing_driven nets ign net_cost num_pins crit delay costs
        = .error msg) ∧
    (timing_driven = true →
      |recompute_bb_cost nets ign net_cost - costs.bb_cost| ≤ costs.bb_cost * ERROR_TOL →
      |comp_td_costs nets ign num_pins crit delay - costs.timing_cost|
          > costs.timing_cost * ERROR_TOL →
      ∃ msg, recompute_costs_from_scratch timing_driven nets ign net_cost num_pins crit delay costs
        = .error msg) ∧
    (timing_driven = true →
      |recompute_bb_cost nets ign net_cost - costs.bb_cost| ≤ costs.bb_cost * ERROR_TOL →
      |comp_td_costs nets ign num_pins crit delay - costs.timing_cost|
          ≤ costs.timing_cost * ERROR_TOL →
      recompute_costs_from_scratch timing_driven nets ign net_cost num_pins crit delay costs
        = .ok { costs with
                bb_cost := recompute_bb_cost nets ign net_cost
                timing_cost := comp_td_costs nets ign num_pins crit delay }) ∧
    (timing_driven = false →
      |recompute_bb_cost nets ign net_cost - costs.bb_cost| ≤ costs.bb_cost * ERROR_TOL →
      recompute_costs_from_scratch timing_driven nets ign net_cost num_pins crit delay costs
        = .ok { costs with
                cost := recompute_bb_cost nets ign net_cost
                bb_cost := recompute_bb_cost nets ign net_cost }) := by
  refine ⟨?_, ?_, ?_, ?_, ?_, ?_⟩
  · unfold moves_recompute_step
    by_cases h : MAX_MOVES_BEFORE_RECOMPUTE < c + 1 <;> simp [h]
  · unfold moves_recompute_step
    by_cases h : MAX_MOVES_BEFORE_RECOMPUTE < c + 1 <;> simp [h]
  · intro h
    unfold recompute_costs_from_scratch
    rw [if_pos h]
    exact ⟨_, rfl⟩
  · intro htd hbb htc
    unfold recompute_costs_from_scratch
    rw [if_neg (not_lt.mpr hbb), htd]
    simp only [if_true]
    rw [if_pos htc]
    exact ⟨_, rfl⟩
  · intro htd hbb htc
    unfold recompute_costs_from_scratch
    rw [if_neg (not_lt.mpr hbb), htd]
    simp only [if_true]
    rw [if_neg (not_lt.mpr htc)]
  · intro htd hbb
    unfold recompute_costs_from_scratch
    rw [if_neg (not_lt.mpr hbb), htd]
    simp

/-- Witness for C7 (amended) at concrete inputs: a fresh counter does not
fire, a full counter does, and a consistent single-net state is accepted
and re-anchored on both algorithm paths. -/
theorem recompute_costs_from_scratch_spec_witness :
    ((moves_recompute_step 500000).2 = true ↔
      MAX_MOVES_BEFORE_RECOMPUTE < 500000 + 1) ∧
    (recompute_costs_from_scratch true [0] (fun _ => false) (fun _ => 1)
        (fun _ => 2) (fun _ _ => 1) (fun _ _ => 1) ⟨1, 1, 1⟩
      = .ok { cost := 1, bb_cost := recompute_bb_cost [0] (fun _ => false) (fun _ => 1),
              timing_cost := comp_td_costs [0] (fun _ => false) (fun _ => 2)
                (fun _ _ => 1) (fun _ _ => 1) }) ∧
    (recompute_costs_from_scratch false [0] (fun _ => false) (fun _ => 1)
        (fun _ => 2) (fun _ _ => 1) (fun _ _ => 1) ⟨1, 1, 1⟩
      = .ok { cost := recompute_bb_cost [0] (fun _ => false) (fun _ => 1),
              bb_cost := recompute_bb_cost [0] (fun _ => false) (fun _ => 1),
              timing_cost := 1 }) := by
  refine ⟨(recompute_costs_from_scratch_spec 500000 true [0] (fun _ => false)
      (fun _ => 1) (fun _ => 2) (fun _ _ => 1) (fun _ _ => 1) ⟨1, 1, 1⟩).1, ?_, ?_⟩
  · exact (recompute_costs_from_scratch_spec 500000 true [0] (fun _ => false)
      (fun _ => 1) (fun _ => 2) (fun _ _ => 1) (fun _ _ => 1) ⟨1, 1, 1⟩).2.2.2.2.1
      rfl (by norm_num [recompute_bb_cost, ERROR_TOL])
      (by norm_num [comp_td_costs, sum_td_net_cost, ERROR_TOL, List.range'])
  · exact (recompute_costs_from_scratch_spec 500000 false [0] (fun _ => false)
      (fun _ => 1) (fun _ => 2) (fun _ _ => 1) (fun _ _ => 1) ⟨1, 1, 1⟩).2.2.2.2.2
      rfl (by norm_num [recompute_bb_cost, ERROR_TOL])

/-! ## C9: quench monotonicity -/

/-- One zero-temperature trial never increases `costs.cost`. -/
theorem try_swap_costs_quench_le (timing_driven : Bool)
    (timing_tradeoff inv_bb inv_timing : ℚ) (exp_fn : ℚ → ℚ)
    (cm : CreateMove) (fnum : ℚ) (costs : t_placer_costs) :
    (try_swap_costs timing_driven timing_tradeoff inv_bb inv_timing exp_fn 0 cm fnum
        costs).2.cost ≤ costs.cost := by
  rcases cm with d | _
  · by_cases hd : compute_delta_c timing_driven timing_tradeoff inv_bb inv_timing d ≤ 0
    · simp only [try_swap_costs, assess_swap, if_pos hd]
      simpa using hd
    · simp [try_swap_costs, assess_swap, hd]
  · simp [try_swap_costs]

/-- C9.  During a quench (every trial run with `t = 0`) the cost is
non-increasing move over move: a move with `delta_c > 0` is never accepted
at `t = 0`, `costs.cost` is changed (by adding `delta_c ≤ 0`) only when a
move is accepted, rejected or aborted moves leave the costs unchanged, and
over a whole quench the cost never rises. -/
theorem quench_monotone (timing_driven : Bool)
    (timing_tradeoff inv_bb inv_timing : ℚ) (exp_fn : ℚ → ℚ) (t : ℚ) (ht : t = 0)
    (cm : CreateMove) (fnum : ℚ) (costs : t_placer_costs)
    (trials : List (CreateMove × ℚ)) :
    (∀ d, cm = .VALID d →
      0 < compute_delta_c timing_driven timing_tradeoff inv_bb inv_timing d →
      (try_swap_costs timing_driven timing_tradeoff inv_bb inv_timing exp_fn t cm fnum
          costs).1 ≠ .ACCEPTED) ∧
    (∀ d, cm = .VALID d →
      (try_swap_costs timing_driven timing_tradeoff inv_bb inv_timing exp_fn t cm fnum
          costs).1 = .ACCEPTED →
      compute_delta_c timing_driven timing_tradeoff inv_bb inv_timing d ≤ 0 ∧
      (try_swap_costs timing_driven timing_tradeoff inv_bb inv_timing exp_fn t cm fnum
          costs).2.cost
        = costs.cost + compute_delta_c timing_driven timing_tradeoff inv_bb inv_timing d) ∧
    ((try_swap_costs timing_driven timing_tradeoff inv_bb inv_timing exp_fn t cm fnum
        costs).1 ≠ .ACCEPTED →
      (try_swap_costs timing_driven timing_tradeoff inv_bb inv_timing exp_fn t cm fnum
        costs).2 = costs) ∧
    (quench_run timing_driven timing_tradeoff inv_bb inv_timing exp_fn trials costs).cost
      ≤ costs.cost := by
  subst ht
  refine ⟨?_, ?_, ?_, ?_⟩
  · rintro d rfl hpos
    simp [try_swap_costs, assess_swap, not_le.mpr hpos]
  · rintro d rfl hacc
    by_cases hd : compute_delta_c timing_driven timing_tradeoff inv_bb inv_timing d ≤ 0
    · refine ⟨hd, ?_⟩
      simp [try_swap_costs, assess_swap, if_pos hd]
    · exfalso
      simp [try_swap_costs, assess_swap, hd] at hacc
  · intro hne
    rcases cm with d | _
    · by_cases hd : compute_delta_c timing_driven timing_tradeoff inv_bb inv_timing d ≤ 0
      · exact absurd (by simp [try_swap_costs, assess_swap, if_pos hd]) hne
      · simp [try_swap_costs, assess_swap, hd]
    · rfl
  · induction trials generalizing costs with
    | nil => simp [quench_run]
    | cons a tl ih =>
      calc (quench_run timing_driven timing_tradeoff inv_bb inv_timing exp_fn (a :: tl)
              costs).cost
          ≤ (try_swap_costs timing_driven timing_tradeoff inv_bb inv_timing exp_fn 0 a.1 a.2
              costs).2.cost := by
            simpa [quench_run] using
              ih ((try_swap_costs timing_driven timing_tradeoff inv_bb inv_timing exp_fn 0
                a.1 a.2 costs).2)
        _ ≤ costs.cost :=
            try_swap_costs_quench_le timing_driven timing_tradeoff inv_bb inv_timing exp_fn
              a.1 a.2 costs

/-- Witness for C9 at concrete inputs: an uphill move (`delta_c = 1`) is
rejected at `t = 0` and leaves the costs unchanged; a one-trial quench does
not raise the cost. -/
theorem quench_monotone_witness :
    (try_swap_costs false 0 0 0 id 0 (.VALID ⟨1, 0⟩) 0 ⟨5, 5, 5⟩).1 ≠ .ACCEPTED ∧
    (try_swap_costs false 0 0 0 id 0 (.VALID ⟨1, 0⟩) 0 ⟨5, 5, 5⟩).2 = ⟨5, 5, 5⟩ ∧
    (quench_run false 0 0 0 id [(.VALID ⟨-1, 0⟩, 0)] ⟨5, 5, 5⟩).cost ≤ 5 := by
  have h := quench_monotone false 0 0 0 id 0 rfl (.VALID ⟨1, 0⟩) 0 ⟨5, 5, 5⟩
    [(.VALID ⟨-1, 0⟩, 0)]
  have h1 := h.1 ⟨1, 0⟩ rfl (by norm_num [compute_delta_c])
  exact ⟨h1, h.2.2.1 h1, h.2.2.2⟩

/-! ## C8: the starting temperature -/

/-- The accumulator fold of `starting_t` computes the count, the sum and
the sum of squares of the accepted trials' recorded costs. -/
theorem starting_t_foldl (trials : ℕ → MoveResult × ℚ) :
    ∀ (l : List ℕ) (acc : ℕ × ℚ × ℚ),
      l.foldl
          (fun (acc : ℕ × ℚ × ℚ) i =>
            if (trials i).1 = .ACCEPTED then
              (acc.1 + 1, acc.2.1 + (trials i).2, acc.2.2 + (trials i).2 * (trials i).2)
            else acc) acc
        = (acc.1 + ((l.filter fun i => (trials i).1 == MoveResult.ACCEPTED).map
              fun i => (trials i).2).length,
           acc.2.1 + ((l.filter fun i => (trials i).1 == MoveResult.ACCEPTED).map
              fun i => (trials i).2).sum,
           acc.2.2 + ((l.filter fun i => (trials i).1 == MoveResult.ACCEPTED).map
              fun i => (trials i).2 * (trials i).2).sum) := by
  intro l
  induction l with
  | nil => intro acc; simp
  | cons a tl ih =>
    intro acc
    by_cases h : (trials a).1 = MoveResult.ACCEPTED <;>
      simp [List.filter_cons, h, ih, add_assoc, add_comm, add_left_comm]

/-- `get_std_dev`, fed the aggregates of a sample list the way `starting_t`
feeds them, is the spec-side standard deviation of that list. -/
theorem get_std_dev_eq_spec (sqrt_fn : ℚ → ℚ) (xs : List ℚ) :
    get_std_dev sqrt_fn xs.length ((xs.map fun x => x * x).sum)
        (if xs.length ≠ 0 then xs.sum / (xs.length : ℚ) else 0)
      = spec_std_dev sqrt_fn xs := by
  have hav : (if xs.length ≠ 0 then xs.sum / (xs.length : ℚ) else 0)
      = xs.sum / (xs.length : ℚ) := by
    by_cases h : xs.length = 0 <;> simp [h]
  rw [hav]
  by_cases hn : xs.length ≤ 1 <;> simp [get_std_dev, spec_std_dev, hn]

/-- C8.  `starting_t` returns the user-supplied `init_t` under the USER
schedule; for every other schedule it runs `move_lim = min(max_moves,
#blocks)` trials of `try_swap` at an effectively infinite temperature and
returns 20 times the standard deviation of the post-acceptance cost values
of the accepted trials, where the standard deviation of `n ≤ 1` samples is
0 and a negative computed variance (sum of squares minus `n` times the
squared average, divided by `n - 1`) is clamped to 0 before the square
root is taken. -/
theorem starting_t_spec (sqrt_fn : ℚ → ℚ) (sched : t_annealing_sched)
    (max_moves num_blocks : ℕ) (trials : ℕ → MoveResult × ℚ) :
    (sched.type = .USER_SCHED →
      starting_t sqrt_fn sched max_moves num_blocks trials = sched.init_t) ∧
    (sched.type ≠ .USER_SCHED →
      starting_t sqrt_fn sched max_moves num_blocks trials =
        20 * spec_std_dev sqrt_fn
          (((List.range (min max_moves num_blocks)).filter
              fun i => (trials i).1 == MoveResult.ACCEPTED).map fun i => (trials i).2)) := by
  constructor
  · intro h
    simp [starting_t, h]
  · intro h
    simp only [starting_t, if_neg h]
    rw [starting_t_foldl trials (List.range (min max_moves num_blocks)) (0, 0, 0)]
    rw [← get_std_dev_eq_spec sqrt_fn]
    simp [List.map_map, Function.comp]
    rfl

/-- Witness for C8: the USER schedule passes `init_t = 7` through; the AUTO
schedule with two always-accepting trials at cost 2 yields `20 · σ` with
`σ = 0`. -/
theorem starting_t_spec_witness :
    starting_t id ⟨.USER_SCHED, 7⟩ 3 5 const_trials = 7 ∧
    starting_t id ⟨.AUTO_SCHED, 7⟩ 2 5 const_trials =
      20 * spec_std_dev id (((List.range (min 2 5)).filter
          fun i => (const_trials i).1 == MoveResult.ACCEPTED).map
          fun i => (const_trials i).2) :=
  ⟨(starting_t_spec id ⟨.USER_SCHED, 7⟩ 3 5 const_trials).1 rfl,
   (starting_t_spec id ⟨.AUTO_SCHED, 7⟩ 2 5 const_trials).2 (by decide)⟩

/-! ## C2: incremental bounding-box update vs from-scratch computation -/

/-- Closed form of one `get_bb_from_scratch` loop iteration on an ordered
axis state. -/
theorem bb_scratch_step_eq {s : BB1} (h : s.lo ≤ s.hi) (x : ℤ) :
    bb_scratch_step s x =
      ⟨if x < s.lo then x else s.lo,
       if s.hi < x then x else s.hi,
       if x < s.lo then 1 else if x = s.lo then s.loE + 1 else s.loE,
       if s.hi < x then 1 else if x = s.hi then s.hiE + 1 else s.hiE⟩ := by
  unfold bb_scratch_step
  by_cases h1 : x = s.lo
  · subst h1
    by_cases h2 : s.lo = s.hi
    · simp [← h2, lt_irrefl]
    · have hxh : ¬ s.hi < s.lo := by omega
      simp [h2, hxh, lt_irrefl]
  · by_cases h2 : x = s.hi
    · subst h2
      have hxl : ¬ s.hi < s.lo := by omega
      simp [h1, hxl, lt_irrefl]
    · by_cases h3 : x < s.lo
      · have hxh : ¬ s.hi < x := by omega
        simp [h1, h2, h3, hxh]
      · by_cases h4 : s.hi < x
        · simp [h1, h2, h3, h4]
        · simp [h1, h2, h3, h4]

/-- One loop iteration of the from-scratch computation preserves the
bounding-box meaning, adding the visited pin to the multiset. -/
theorem bb1_describes_step {s : BB1} {m : Multiset ℤ} (hs : bb1_describes s m)
    (x : ℤ) : bb1_describes (bb_scratch_step s x) (x ::ₘ m) := by
  obtain ⟨hb, hlo, hhi, hloE, hhiE⟩ := hs
  have hlh : s.lo ≤ s.hi := (hb s.hi hhi).1
  rw [bb_scratch_step_eq hlh x]
  refine ⟨?_, ?_, ?_, ?_, ?_⟩
  · intro y hy
    rcases Multiset.mem_cons.mp hy with rfl | hym
    · dsimp only
      constructor <;> split_ifs <;> omega
    · have := hb y hym
      dsimp only
      constructor <;> split_ifs <;> omega
  · dsimp only
    split_ifs with hx
    · exact Multiset.mem_cons_self x m
    · exact Multiset.mem_cons_of_mem hlo
  · dsimp only
    split_ifs with hx
    · exact Multiset.mem_cons_self x m
    · exact Multiset.mem_cons_of_mem hhi
  · dsimp only
    split_ifs with hx1 hx2
    · have hnm : x ∉ m := fun hm => absurd (hb x hm).1 (not_le.mpr hx1)
      rw [Multiset.count_cons_self, Multiset.count_eq_zero_of_not_mem hnm]
      simp
    · subst hx2
      rw [Multiset.count_cons_self]
      push_cast
      omega
    · rw [Multiset.count_cons_of_ne (fun hc => hx2 hc.symm), ← hloE]
  · dsimp only
    split_ifs with hx1 hx2
    · have hnm : x ∉ m := fun hm => absurd (hb x hm).2 (not_le.mpr hx1)
      rw [Multiset.count_cons_self, Multiset.count_eq_zero_of_not_mem hnm]
      simp
    · subst hx2
      rw [Multiset.count_cons_self]
      push_cast
      omega
    · rw [Multiset.count_cons_of_ne (fun hc => hx2 hc.symm), ← hhiE]

/-- Folding the from-scratch loop over a pin list preserves the meaning. -/
theorem bb1_describes_foldl :
    ∀ (l : List ℤ) (s : BB1) (m : Multiset ℤ), bb1_describes s m →
      bb1_describes (l.foldl bb_scratch_step s) (m + (l : Multiset ℤ))
  | [], s, m, h => by simpa using h
  | a :: l, s, m, h => by
    have h2 := bb1_describes_foldl l (bb_scratch_step s a) (a ::ₘ m)
      (bb1_describes_step h a)
    have hms : (a ::ₘ m) + (l : Multiset ℤ) = m + ((a :: l : List ℤ) : Multiset ℤ) := by
      rw [← Multiset.cons_coe, Multiset.cons_add, Multiset.add_cons]
    rw [List.foldl_cons]
    rwa [hms] at h2

/-- `bb_scratch_1d` computes the bounding box and edge counts of the pin
multiset (driver pin first). -/
theorem bb1_describes_scratch (x0 : ℤ) (xs : List ℤ) :
    bb1_describes (bb_scratch_1d x0 xs) (x0 ::ₘ (xs : Multiset ℤ)) := by
  have hinit : bb1_describes ⟨x0, x0, 1, 1⟩ ({x0} : Multiset ℤ) := by
    refine ⟨?_, ?_, ?_, ?_, ?_⟩ <;> simp
  have h := bb1_describes_foldl xs ⟨x0, x0, 1, 1⟩ {x0} hinit
  rwa [Multiset.singleton_add] at h

/-- The bounding-box meaning determines the axis state uniquely. -/
theorem bb1_describes_unique {s s' : BB1} {m : Multiset ℤ}
    (h : bb1_describes s m) (h' : bb1_describes s' m) : s = s' := by
  obtain ⟨hb, hlo, hhi, hloE, hhiE⟩ := h
  obtain ⟨hb', hlo', hhi', hloE', hhiE'⟩ := h'
  have h1 : s.lo = s'.lo := le_antisymm (hb s'.lo hlo').1 (hb' s.lo hlo).1
  have h2 : s.hi = s'.hi := le_antisymm (hb' s.hi hhi).2 (hb s'.hi hhi').2
  rcases s with ⟨lo, hi, loE, hiE⟩
  rcases s' with ⟨lo', hi', loE', hiE'⟩
  simp only at h1 h2 hloE hloE' hhiE hhiE'
  subst h1
  subst h2
  simp only [BB1.mk.injEq, true_and]
  subst hloE
  subst hhiE
  exact ⟨hloE'.symm, hhiE'.symm⟩

/-- The incremental one-axis update reports `none` exactly when the moved
pin leaves an extreme it solely occupies. -/
theorem update_bb_1d_none_iff (xold xnew : ℤ) (c : BB1) :
    update_bb_1d xold xnew c = none ↔
      ((xnew < xold ∧ xold = c.hi ∧ c.hiE = 1) ∨
       (xold < xnew ∧ xold = c.lo ∧ c.loE = 1)) := by
  unfold update_bb_1d
  rcases lt_trichotomy xnew xold with h1 | h1 | h1
  · rw [if_pos h1]
    by_cases h2 : xold = c.hi ∧ c.hiE = 1
    · rw [if_pos h2]
      exact ⟨fun _ => Or.inl ⟨h1, h2.1, h2.2⟩, fun _ => rfl⟩
    · simp only [if_neg h2]
      constructor
      · intro hcontra
        simp at hcontra
      · rintro (⟨_, hA, hB⟩ | ⟨hlt, _⟩)
        · exact absurd ⟨hA, hB⟩ h2
        · omega
  · subst h1
    simp [lt_irrefl]
  · rw [if_neg (by omega), if_pos h1]
    by_cases h2 : xold = c.lo ∧ c.loE = 1
    · rw [if_pos h2]
      exact ⟨fun _ => Or.inr ⟨h1, h2.1, h2.2⟩, fun _ => rfl⟩
    · simp only [if_neg h2]
      constructor
      · intro hcontra
        simp at hcontra
      · rintro (⟨hlt, _⟩ | ⟨_, hA, hB⟩)
        · omega
        · exact absurd ⟨hA, hB⟩ h2

/-- Correctness of the incremental one-axis update: starting from a state
describing the pre-move pin multiset, a successful update describes the
post-move multiset (one occurrence of the old coordinate replaced by the
new one). -/
theorem update_bb_1d_some {c : BB1} {m : Multiset ℤ} {xold xnew : ℤ}
    (hc : bb1_describes c m) (hmem : xold ∈ m) {r : BB1}
    (hr : update_bb_1d xold xnew c = some r) :
    bb1_describes r (xnew ::ₘ m.erase xold) := by
  obtain ⟨hb, hlo, hhi, hloE, hhiE⟩ := hc
  have hxlo : c.lo ≤ xold := (hb xold hmem).1
  have hxhi : xold ≤ c.hi := (hb xold hmem).2
  have hclo : 0 < m.count c.lo := Multiset.count_pos.mpr hlo
  have hchi : 0 < m.count c.hi := Multiset.count_pos.mpr hhi
  have hcold : 0 < m.count xold := Multiset.count_pos.mpr hmem
  rcases lt_trichotomy xnew xold with h1 | h1 | h1
  · rw [update_bb_1d, if_pos h1] at hr
    by_cases h2 : xold = c.hi ∧ c.hiE = 1
    · rw [if_pos h2] at hr
      cases hr
    · rw [if_neg h2] at hr
      dsimp only at hr
      injection hr with hr
      subst hr
      refine ⟨?_, ?_, ?_, ?_, ?_⟩
      · intro y hy
        rcases Multiset.mem_cons.mp hy with rfl | hym
        · dsimp only
          constructor
          · split_ifs <;> omega
          · omega
        · have hyb := hb y (Multiset.mem_of_mem_erase hym)
          dsimp only
          constructor
          · split_ifs <;> omega
          · omega
      · dsimp only
        split_ifs with ha hb'
        · exact Multiset.mem_cons_self _ _
        · rw [← hb']
          exact Multiset.mem_cons_self _ _
        · exact Multiset.mem_cons_of_mem
            ((Multiset.mem_erase_of_ne (by omega)).mpr hlo)
      · dsimp only
        by_cases h3 : xold = c.hi
        · have hne : c.hiE ≠ 1 := fun hE => h2 ⟨h3, hE⟩
          have hpos : 0 < (m.erase xold).count c.hi := by
            rw [h3, Multiset.count_erase_self]
            omega
          exact Multiset.mem_cons_of_mem (Multiset.count_pos.mp hpos)
        · exact Multiset.mem_cons_of_mem
            ((Multiset.mem_erase_of_ne (fun hq => h3 hq.symm)).mpr hhi)
      · dsimp only
        split_ifs with ha hb'
        · have hn : xnew ∉ m.erase xold := fun hmm =>
            absurd (hb xnew (Multiset.mem_of_mem_erase hmm)).1 (by omega)
          rw [Multiset.count_cons_self, Multiset.count_eq_zero_of_not_mem hn]
          simp
        · rw [hb', Multiset.count_cons_self,
            Multiset.count_erase_of_ne (by omega)]
          push_cast
          omega
        · rw [Multiset.count_cons_of_ne (by omega),
            Multiset.count_erase_of_ne (by omega)]
          exact hloE
      · dsimp only
        split_ifs with h3
        · rw [Multiset.count_cons_of_ne (by omega), h3,
            Multiset.count_erase_self]
          omega
        · rw [Multiset.count_cons_of_ne (by omega),
            Multiset.count_erase_of_ne (fun hq => h3 hq.symm)]
          exact hhiE
  · subst h1
    rw [update_bb_1d, if_neg (by omega), if_neg (by omega)] at hr
    injection hr with hr
    subst hr
    rw [Multiset.cons_erase hmem]
    exact ⟨hb, hlo, hhi, hloE, hhiE⟩
  · rw [update_bb_1d, if_neg (by omega), if_pos h1] at hr
    by_cases h2 : xold = c.lo ∧ c.loE = 1
    · rw [if_pos h2] at hr
      cases hr
    · rw [if_neg h2] at hr
      dsimp only at hr
      injection hr with hr
      subst hr
      refine ⟨?_, ?_, ?_, ?_, ?_⟩
      · intro y hy
        rcases Multiset.mem_cons.mp hy with rfl | hym
        · dsimp only
          constructor
          · omega
          · split_ifs <;> omega
        · have hyb := hb y (Multiset.mem_of_mem_erase hym)
          dsimp only
          constructor
          · omega
          · split_ifs <;> omega
      · dsimp only
        by_cases h3 : xold = c.lo
        · have hne : c.loE ≠ 1 := fun hE => h2 ⟨h3, hE⟩
          have hpos : 0 < (m.erase xold).count c.lo := by
            rw [h3, Multiset.count_erase_self]
            omega
          exact Multiset.mem_cons_of_mem (Multiset.count_pos.mp hpos)
        · exact Multiset.mem_cons_of_mem
            ((Multiset.mem_erase_of_ne (fun hq => h3 hq.symm)).mpr hlo)
      · dsimp only
        split_ifs with ha hb'
        · exact Multiset.mem_cons_self _ _
        · rw [← hb']
          exact Multiset.mem_cons_self _ _
        · exact Multiset.mem_cons_of_mem
            ((Multiset.mem_erase_of_ne (by omega)).mpr hhi)
      · dsimp only
        split_ifs with h3
        · rw [Multiset.count_cons_of_ne (by omega), h3,
            Multiset.count_erase_self]
          omega
        · rw [Multiset.count_cons_of_ne (by omega),
            Multiset.count_erase_of_ne (fun hq => h3 hq.symm)]
          exact hloE
      · dsimp only
        split_ifs with ha hb'
        · have hn : xnew ∉ m.erase xold := fun hmm =>
            absurd (hb xnew (Multiset.mem_of_mem_erase hmm)).2 (by omega)
          rw [Multiset.count_cons_self, Multiset.count_eq_zero_of_not_mem hn]
          simp
        · rw [hb', Multiset.count_cons_self,
            Multiset.count_erase_of_ne (by omega)]
          push_cast
          omega
        · rw [Multiset.count_cons_of_ne (by omega),
            Multiset.count_erase_of_ne (by omega)]
          exact hhiE

/-- Splitting the clipped one-axis pin multiset of a net at the moved pin's
position in the pin list. -/
theorem pin_multiset_split (f : ℤ × ℤ → ℤ) (d : ℤ × ℤ)
    (sinks A B : List (ℤ × ℤ)) (p : ℤ × ℤ) (h : d :: sinks = A ++ p :: B) :
    (f d ::ₘ ((sinks.map f : List ℤ) : Multiset ℤ))
      = f p ::ₘ (((A.map f : List ℤ) : Multiset ℤ)
          + ((B.map f : List ℤ) : Multiset ℤ)) := by
  have h2 : f d :: sinks.map f = A.map f ++ f p :: B.map f := by
    rw [← List.map_cons, h]
    simp
  calc (f d ::ₘ ((sinks.map f : List ℤ) : Multiset ℤ))
      = ((f d :: sinks.map f : List ℤ) : Multiset ℤ) := by
        rw [Multiset.cons_coe]
    _ = ((A.map f ++ f p :: B.map f : List ℤ) : Multiset ℤ) := by rw [h2]
    _ = ((A.map f : List ℤ) : Multiset ℤ) + ((f p :: B.map f : List ℤ) : Multiset ℤ) := by
        rw [Multiset.coe_add]
    _ = ((A.map f : List ℤ) : Multiset ℤ) + (f p ::ₘ ((B.map f : List ℤ) : Multiset ℤ)) := by
        rw [Multiset.cons_coe]
    _ = f p ::ₘ (((A.map f : List ℤ) : Multiset ℤ) + ((B.map f : List ℤ) : Multiset ℤ)) := by
        rw [Multiset.add_cons]

/-- Reassembling the axis views of a `(coords, edges)` pair is the
identity. -/
theorem mk_bbs_views (c e : t_bb) : mk_bbs (xview c e) (yview c e) = (c, e) := rfl

/-- C2.  For every large net (fanout ≥ `SMALL_NET` = 4) and every
single-pin move from `(xold, yold)` to `(xnew, ynew)` (coordinates clipped
by `update_bb` itself), the bounding-box coordinates and edge counts
produced by the incremental updater `update_bb` equal those produced by
`get_bb_from_scratch` on the post-move pin positions; when the moved pin
leaves an extreme it solely occupies (here: `xnew < xold`,
`xold == xmax`, `xmax_edge == 1`) the updater recomputes from scratch and
sets the net's flag to `GOT_FROM_SCRATCH`; and any `update_bb` call on a
net already flagged `GOT_FROM_SCRATCH` changes nothing.  The entry state
may be a first update (flag `NOT_UPDATED_YET`, committed box consistent
with the pre-move pins) or a later one (flag `UPDATED_ONCE`, trial box
consistent with the pre-move pins). -/
theorem update_bb_matches_scratch
    (width height : ℤ) (driver_pre driver_post : ℤ × ℤ)
    (sinks_pre sinks_post : List (ℤ × ℤ))
    (xold yold xnew ynew : ℤ) (A B : List (ℤ × ℤ))
    (hpre : driver_pre :: sinks_pre = A ++ (xold, yold) :: B)
    (hpost : driver_post :: sinks_post = A ++ (xnew, ynew) :: B)
    (_hlarge : SMALL_NET ≤ sinks_pre.length)
    (s : UpdBBState) (hflag : s.bb_updated ≠ .GOT_FROM_SCRATCH)
    (hcur_c : (if s.bb_updated = .NOT_UPDATED_YET then s.bb_coords else s.ts_bb_coord_new)
        = (get_bb_from_scratch width height driver_pre sinks_pre).1)
    (hcur_e : (if s.bb_updated = .NOT_UPDATED_YET then s.bb_num_on_edges else s.ts_bb_edge_new)
        = (get_bb_from_scratch width height driver_pre sinks_pre).2)
    (s2 : UpdBBState) (hs2 : s2.bb_updated = .GOT_FROM_SCRATCH) :
    ((update_bb width height driver_post sinks_post xold yold xnew ynew s).ts_bb_coord_new
        = (get_bb_from_scratch width height driver_post sinks_post).1 ∧
     (update_bb width height driver_post sinks_post xold yold xnew ynew s).ts_bb_edge_new
        = (get_bb_from_scratch width height driver_post sinks_post).2) ∧
    (clipx width xnew < clipx width xold →
      clipx width xold = (get_bb_from_scratch width height driver_pre sinks_pre).1.xmax →
      (get_bb_from_scratch width height driver_pre sinks_pre).2.xmax = 1 →
      (update_bb width height driver_post sinks_post xold yold xnew ynew s).bb_updated
        = .GOT_FROM_SCRATCH) ∧
    update_bb width height driver_post sinks_post xold yold xnew ynew s2 = s2 := by
  have hdx_pre : bb1_describes
      (xview (get_bb_from_scratch width height driver_pre sinks_pre).1
        (get_bb_from_scratch width height driver_pre sinks_pre).2)
      (clipx width xold ::ₘ
        ((((A.map fun p => clipx width p.1) : List ℤ) : Multiset ℤ)
          + (((B.map fun p => clipx width p.1) : List ℤ) : Multiset ℤ))) := by
    have h := bb1_describes_scratch (clipx width driver_pre.1)
      (sinks_pre.map fun p => clipx width p.1)
    rwa [pin_multiset_split (fun p => clipx width p.1) driver_pre sinks_pre A B
      (xold, yold) hpre] at h
  have hdy_pre : bb1_describes
      (yview (get_bb_from_scratch width height driver_pre sinks_pre).1
        (get_bb_from_scratch width height driver_pre sinks_pre).2)
      (clipy height yold ::ₘ
        ((((A.map fun p => clipy height p.2) : List ℤ) : Multiset ℤ)
          + (((B.map fun p => clipy height p.2) : List ℤ) : Multiset ℤ))) := by
    have h := bb1_describes_scratch (clipy height driver_pre.2)
      (sinks_pre.map fun p => clipy height p.2)
    rwa [pin_multiset_split (fun p => clipy height p.2) driver_pre sinks_pre A B
      (xold, yold) hpre] at h
  have hdx_post : bb1_describes
      (xview (get_bb_from_scratch width height driver_post sinks_post).1
        (get_bb_from_scratch width height driver_post sinks_post).2)
      (clipx width xnew ::ₘ
        ((((A.map fun p => clipx width p.1) : List ℤ) : Multiset ℤ)
          + (((B.map fun p => clipx width p.1) : List ℤ) : Multiset ℤ))) := by
    have h := bb1_describes_scratch (clipx width driver_post.1)
      (sinks_post.map fun p => clipx width p.1)
    rwa [pin_multiset_split (fun p => clipx width p.1) driver_post sinks_post A B
      (xnew, ynew) hpost] at h
  have hdy_post : bb1_describes
      (yview (get_bb_from_scratch width height driver_post sinks_post).1
        (get_bb_from_scratch width height driver_post sinks_post).2)
      (clipy height ynew ::ₘ
        ((((A.map fun p => clipy height p.2) : List ℤ) : Multiset ℤ)
          + (((B.map fun p => clipy height p.2) : List ℤ) : Multiset ℤ))) := by
    have h := bb1_describes_scratch (clipy height driver_post.2)
      (sinks_post.map fun p => clipy height p.2)
    rwa [pin_multiset_split (fun p => clipy height p.2) driver_post sinks_post A B
      (xnew, ynew) hpost] at h
  have hfact : ∀ rx, update_bb_1d (clipx width xold) (clipx width xnew)
      (xview (get_bb_from_scratch width height driver_pre sinks_pre).1
        (get_bb_from_scratch width height driver_pre sinks_pre).2) = some rx →
      rx = xview (get_bb_from_scratch width height driver_post sinks_post).1
        (get_bb_from_scratch width height driver_post sinks_post).2 := by
    intro rx hrx
    have hres := update_bb_1d_some hdx_pre (Multiset.mem_cons_self _ _) hrx
    rw [Multiset.erase_cons_head] at hres
    exact bb1_describes_unique hres hdx_post
  have hfacty : ∀ ry, update_bb_1d (clipy height yold) (clipy height ynew)
      (yview (get_bb_from_scratch width height driver_pre sinks_pre).1
        (get_bb_from_scratch width height driver_pre sinks_pre).2) = some ry →
      ry = yview (get_bb_from_scratch width height driver_post sinks_post).1
        (get_bb_from_scratch width height driver_post sinks_post).2 := by
    intro ry hry
    have hres := update_bb_1d_some hdy_pre (Multiset.mem_cons_self _ _) hry
    rw [Multiset.erase_cons_head] at hres
    exact bb1_describes_unique hres hdy_post
  refine ⟨?_, ?_, ?_⟩
  · simp only [update_bb, if_neg hflag, hcur_c, hcur_e]
    rcases hrx : update_bb_1d (clipx width xold) (clipx width xnew)
        (xview (get_bb_from_scratch width height driver_pre sinks_pre).1
          (get_bb_from_scratch width height driver_pre sinks_pre).2) with _ | rx
    · exact ⟨rfl, rfl⟩
    · rcases hry : update_bb_1d (clipy height yold) (clipy height ynew)
          (yview (get_bb_from_scratch width height driver_pre sinks_pre).1
            (get_bb_from_scratch width height driver_pre sinks_pre).2) with _ | ry
      · exact ⟨rfl, rfl⟩
      · rw [hfact rx hrx, hfacty ry hry]
        exact ⟨rfl, rfl⟩
  · intro ha hb hc
    have hnone : update_bb_1d (clipx width xold) (clipx width xnew)
        (xview (get_bb_from_scratch width height driver_pre sinks_pre).1
          (get_bb_from_scratch width height driver_pre sinks_pre).2) = none := by
      rw [update_bb_1d_none_iff]
      exact Or.inl ⟨ha, hb, hc⟩
    simp only [update_bb, if_neg hflag, hcur_c, hcur_e, hnone]
  · simp only [update_bb, if_pos hs2]

/-- Witness for C2: on the concrete five-pin net, moving the sole
`xmax`/`ymax` pin `(5,5)` down-left to `(2,2)` triggers the from-scratch
fallback, the trial box matches `get_bb_from_scratch` on the post-move
pins, and a further call on the `GOT_FROM_SCRATCH` state is a no-op. -/
theorem update_bb_matches_scratch_witness :
    ((update_bb 10 10 (1, 1) [(3, 3), (2, 2), (2, 4), (4, 2)] 5 5 2 2
        wit_bb_state).ts_bb_coord_new
      = (get_bb_from_scratch 10 10 (1, 1) [(3, 3), (2, 2), (2, 4), (4, 2)]).1 ∧
     (update_bb 10 10 (1, 1) [(3, 3), (2, 2), (2, 4), (4, 2)] 5 5 2 2
        wit_bb_state).ts_bb_edge_new
      = (get_bb_from_scratch 10 10 (1, 1) [(3, 3), (2, 2), (2, 4), (4, 2)]).2) ∧
    (update_bb 10 10 (1, 1) [(3, 3), (2, 2), (2, 4), (4, 2)] 5 5 2 2
        wit_bb_state).bb_updated = .GOT_FROM_SCRATCH ∧
    update_bb 10 10 (1, 1) [(3, 3), (2, 2), (2, 4), (4, 2)] 5 5 2 2
      wit_bb_state2 = wit_bb_state2 := by
  have h := update_bb_matches_scratch 10 10 (1, 1) (1, 1)
    [(3, 3), (5, 5), (2, 4), (4, 2)] [(3, 3), (2, 2), (2, 4), (4, 2)]
    5 5 2 2 [(1, 1), (3, 3)] [(2, 4), (4, 2)] rfl rfl
    (by norm_num [SMALL_NET]) wit_bb_state (by decide) rfl rfl
    wit_bb_state2 (by decide)
  exact ⟨h.1, h.2.1 (by decide) (by decide) (by decide), h.2.2⟩

/-! ## C4/C5: the affected-net walk, commit and revert -/

/-- A nested fold over per-block pin lists is the fold over the flattened
pin list. -/
theorem foldl_flatMap {α β γ : Type} (g : β → List γ) (f : α → γ → α) :
    ∀ (bs : List β) (a : α),
      bs.foldl (fun a b => (g b).foldl f a) a = (bs.flatMap g).foldl f a
  | [], _ => rfl
  | b :: bs, a => by
    simp only [List.foldl_cons, List.flatMap_cons, List.foldl_append]
    exact foldl_flatMap g f bs _

/-- With duplicate-free moved blocks, the flattened pin list of the moved
blocks is duplicate-free (each pin belongs to exactly one block). -/
theorem flat_pins_nodup (nl : Netlist) (wf : NetlistWF nl) :
    ∀ (moved : List ℕ), moved.Nodup → (moved.flatMap nl.block_pins).Nodup
  | [], _ => List.nodup_nil
  | b :: bs, h => by
    rw [List.flatMap_cons, List.nodup_append]
    refine ⟨wf.block_pins_nodup b, flat_pins_nodup nl wf bs (List.Nodup.of_cons h), ?_⟩
    intro p hp hp'
    obtain ⟨b', hb', hpb'⟩ := List.mem_flatMap.mp hp'
    have h1 := wf.pin_block_mem b p hp
    have h2 := wf.pin_block_mem b' p hpb'
    have hbb : b = b' := h1.symm.trans h2
    subst hbb
    exact (List.nodup_cons.mp h).1 hb'

/-- `driven_by_moved_block` tests membership of the net's driver block in
the moved-block list. -/
theorem driven_iff (nl : Netlist) (moved : List ℕ) (net : ℕ) :
    driven_by_moved_block nl moved net = true ↔ nl.net_driver_block net ∈ moved := by
  simp [driven_by_moved_block, List.any_eq_true]

/-- Negative form of `driven_iff`. -/
theorem driven_false_iff (nl : Netlist) (moved : List ℕ) (net : ℕ) :
    driven_by_moved_block nl moved net = false ↔ nl.net_driver_block net ∉ moved := by
  rw [← driven_iff nl moved net]
  simp

/-- `update_bb` never writes the committed box or edge counts. -/
theorem update_bb_committed (width height : ℤ) (d : ℤ × ℤ) (sk : List (ℤ × ℤ))
    (xo yo xn yn : ℤ) (u : UpdBBState) :
    (update_bb width height d sk xo yo xn yn u).bb_coords = u.bb_coords ∧
    (update_bb width height d sk xo yo xn yn u).bb_num_on_edges = u.bb_num_on_edges := by
  unfold update_bb
  dsimp only
  split
  · exact ⟨rfl, rfl⟩
  · split
    · exact ⟨rfl, rfl⟩
    · split
      · exact ⟨rfl, rfl⟩
      · exact ⟨rfl, rfl⟩

/-- `record_affected_net` touches only `proposed_net_cost` and
`ts_nets_to_update`. -/
theorem record_affected_net_fields (net : ℕ) (st : TrialState) :
    (record_affected_net net st).connection_delay = st.connection_delay ∧
    (record_affected_net net st).proposed_connection_delay = st.proposed_connection_delay ∧
    (record_affected_net net st).connection_timing_cost = st.connection_timing_cost ∧
    (record_affected_net net st).proposed_connection_timing_cost
      = st.proposed_connection_timing_cost ∧
    (record_affected_net net st).affected_pins = st.affected_pins ∧
    (record_affected_net net st).timing_delta_c = st.timing_delta_c ∧
    (record_affected_net net st).bbs = st.bbs ∧
    (record_affected_net net st).net_cost = st.net_cost ∧
    (record_affected_net net st).timing_cost = st.timing_cost ∧
    (record_affected_net net st).bb_delta_c = st.bb_delta_c := by
  unfold record_affected_net
  split <;> exact ⟨rfl, rfl, rfl, rfl, rfl, rfl, rfl, rfl, rfl, rfl⟩

/-- The two possible effects of `record_affected_net` on the markers. -/
theorem record_affected_net_marks (net : ℕ) (st : TrialState) :
    ((record_affected_net net st).ts_nets_to_update = st.ts_nets_to_update ∧
      (record_affected_net net st).proposed_net_cost = st.proposed_net_cost ∧
      ¬ st.proposed_net_cost net < 0) ∨
    ((record_affected_net net st).ts_nets_to_update = st.ts_nets_to_update ++ [net] ∧
      (record_affected_net net st).proposed_net_cost = fupd st.proposed_net_cost net 1 ∧
      st.proposed_net_cost net < 0) := by
  unfold record_affected_net
  split
  · exact Or.inr ⟨rfl, rfl, by assumption⟩
  · exact Or.inl ⟨rfl, rfl, by assumption⟩

/-- `update_net_bb` touches only the per-net box state of its net, and
even there only the trial scratch fields and the flag. -/
theorem update_net_bb_fields (P : TrialParams) (net pin : ℕ) (st : TrialState) :
    (update_net_bb P net pin st).proposed_net_cost = st.proposed_net_cost ∧
    (update_net_bb P net pin st).ts_nets_to_update = st.ts_nets_to_update ∧
    (update_net_bb P net pin st).connection_delay = st.connection_delay ∧
    (update_net_bb P net pin st).proposed_connection_delay = st.proposed_connection_delay ∧
    (update_net_bb P net pin st).connection_timing_cost = st.connection_timing_cost ∧
    (update_net_bb P net pin st).proposed_connection_timing_cost
      = st.proposed_connection_timing_cost ∧
    (update_net_bb P net pin st).affected_pins = st.affected_pins ∧
    (update_net_bb P net pin st).timing_delta_c = st.timing_delta_c ∧
    (update_net_bb P net pin st).net_cost = st.net_cost ∧
    (update_net_bb P net pin st).timing_cost = st.timing_cost ∧
    (update_net_bb P net pin st).bb_delta_c = st.bb_delta_c ∧
    (∀ n, n ≠ net → (update_net_bb P net pin st).bbs n = st.bbs n) ∧
    (∀ n, ((update_net_bb P net pin st).bbs n).bb_coords = (st.bbs n).bb_coords ∧
      ((update_net_bb P net pin st).bbs n).bb_num_on_edges = (st.bbs n).bb_num_on_edges) := by
  unfold update_net_bb
  split
  · split
    · refine ⟨rfl, rfl, rfl, rfl, rfl, rfl, rfl, rfl, rfl, rfl, rfl, ?_, ?_⟩
      · intro n hn
        simp [fupd, hn]
      · intro n
        by_cases hn : n = net
        · subst hn
          simp [fupd]
        · simp [fupd, hn]
    · exact ⟨rfl, rfl, rfl, rfl, rfl, rfl, rfl, rfl, rfl, rfl, rfl,
        fun n _ => rfl, fun n => ⟨rfl, rfl⟩⟩
  · refine ⟨rfl, rfl, rfl, rfl, rfl, rfl, rfl, rfl, rfl, rfl, rfl, ?_, ?_⟩
    · intro n hn
      simp [fupd, hn]
    · intro n
      by_cases hn : n = net
      · subst hn
        simp only [fupd, if_pos rfl]
        exact update_bb_committed P.width P.height (P.locs n).1 (P.locs n).2
          (P.old_pos pin).1 (P.old_pos pin).2 (P.new_pos pin).1 (P.new_pos pin).2
          (st.bbs n)
      · simp [fupd, hn]

/-- Closed form of the driver-branch fold of `update_td_delta_costs`: all
state except the shadow arrays, the delta and the affected-pin list is
untouched; the pins of the processed sink indices are appended in order;
the delta accumulates one difference per sink index; and the shadow
entries of exactly the processed indices of this net hold the recomputed
values. -/
theorem td_driver_foldl (crit delay : ℕ → ℕ → ℚ) (net : ℕ) (pin_of : ℕ → ℕ) :
    ∀ (l : List ℕ) (st : TrialState),
      ((l.foldl (fun st ipin => td_update_one crit delay net ipin (pin_of ipin) st)
            st).proposed_net_cost = st.proposed_net_cost ∧
        (l.foldl (fun st ipin => td_update_one crit delay net ipin (pin_of ipin) st)
            st).ts_nets_to_update = st.ts_nets_to_update ∧
        (l.foldl (fun st ipin => td_update_one crit delay net ipin (pin_of ipin) st)
            st).net_cost = st.net_cost ∧
        (l.foldl (fun st ipin => td_update_one crit delay net ipin (pin_of ipin) st)
            st).bbs = st.bbs ∧
        (l.foldl (fun st ipin => td_update_one crit delay net ipin (pin_of ipin) st)
            st).connection_delay = st.connection_delay ∧
        (l.foldl (fun st ipin => td_update_one crit delay net ipin (pin_of ipin) st)
            st).connection_timing_cost = st.connection_timing_cost ∧
        (l.foldl (fun st ipin => td_update_one crit delay net ipin (pin_of ipin) st)
            st).bb_delta_c = st.bb_delta_c ∧
        (l.foldl (fun st ipin => td_update_one crit delay net ipin (pin_of ipin) st)
            st).timing_cost = st.timing_cost) ∧
      (l.foldl (fun st ipin => td_update_one crit delay net ipin (pin_of ipin) st)
          st).affected_pins = st.affected_pins ++ l.map pin_of ∧
      (l.foldl (fun st ipin => td_update_one crit delay net ipin (pin_of ipin) st)
          st).timing_delta_c = st.timing_delta_c
        + (l.map fun i => crit net i * delay net i - st.connection_timing_cost net i).sum ∧
      (∀ n i, (l.foldl (fun st ipin => td_update_one crit delay net ipin (pin_of ipin) st)
            st).proposed_connection_delay n i
          = if n = net ∧ i ∈ l then some (delay net i)
            else st.proposed_connection_delay n i) ∧
      (∀ n i, (l.foldl (fun st ipin => td_update_one crit delay net ipin (pin_of ipin) st)
            st).proposed_connection_timing_cost n i
          = if n = net ∧ i ∈ l then some (crit net i * delay net i)
            else st.proposed_connection_timing_cost n i)
  | [], st => by simp
  | a :: l, st => by
    have ih := td_driver_foldl crit delay net pin_of l
      (td_update_one crit delay net a (pin_of a) st)
    rw [List.foldl_cons] at *
    obtain ⟨⟨ih1, ih2, ih3, ih4, ih5, ih6, ih7, ih8⟩, ihap, ihdelta, ihpcd, ihpctc⟩ := ih
    refine ⟨⟨ih1, ih2, ih3, ih4, ih5, ih6, ih7, ih8⟩, ?_, ?_, ?_, ?_⟩
    · rw [ihap]
      simp [td_update_one]
    · rw [ihdelta]
      simp only [td_update_one]
      rw [List.map_cons, List.sum_cons]
      ring
    · intro n i
      rw [ihpcd n i]
      by_cases hn : n = net
      · subst hn
        by_cases hia : i = a
        · subst hia
          by_cases hil : i ∈ l <;> simp [hil, td_update_one, fupd2, List.mem_cons]
        · by_cases hil : i ∈ l <;> simp [hil, hia, td_update_one, fupd2, List.mem_cons]
      · simp [hn, td_update_one, fupd2]
    · intro n i
      rw [ihpctc n i]
      by_cases hn : n = net
      · subst hn
        by_cases hia : i = a
        · subst hia
          by_cases hil : i ∈ l <;> simp [hil, td_update_one, fupd2, List.mem_cons]
        · by_cases hil : i ∈ l <;> simp [hil, hia, td_update_one, fupd2, List.mem_cons]
      · simp [hn, td_update_one, fupd2]

/-- A sink index of the driver-branch loop is a valid 1-based sink index
of an `n`-pin net. -/
theorem mem_sink_range {i k : ℕ} (h : i ∈ List.range' 1 (k - 1)) :
    1 ≤ i ∧ i < k := by
  rw [List.mem_range'_1] at h
  omega

/-- A non-ignored net is ignored-false. -/
theorem not_ignored_false {b : Bool} (h : ¬ b = true) : b = false := by
  cases b
  · rfl
  · exact absurd rfl h

/-- Processing one pin of a moved block preserves the marker invariant. -/
theorem C4Inv_process_pin (P : TrialParams) (wf : NetlistWF P.nl)
    (st0 st : TrialState) (q : ℕ)
    (hq_blk : ∃ b ∈ P.moved_blocks, q ∈ P.nl.block_pins b)
    (hq0 : ∀ n, st0.proposed_net_cost n = -1)
    (hinv : C4Inv P.nl P.moved_blocks st0 st) :
    C4Inv P.nl P.moved_blocks st0 (process_pin P st q) := by
  obtain ⟨hcomm, hmarks, hshadow⟩ := hinv
  by_cases hig : P.nl.net_is_ignored (P.nl.pin_net q) = true
  · unfold process_pin
    rw [if_pos hig]
    exact ⟨hcomm, hmarks, hshadow⟩
  · have hig' : P.nl.net_is_ignored (P.nl.pin_net q) = false := not_ignored_false hig
    -- step 1: record_affected_net
    have hst1 : C4Inv P.nl P.moved_blocks st0 (record_affected_net (P.nl.pin_net q) st)
        ∧ P.nl.pin_net q ∈ (record_affected_net (P.nl.pin_net q) st).ts_nets_to_update := by
      obtain ⟨f1, f2, f3, f4, f5, f6, f7, f8, f9, f10⟩ :=
        record_affected_net_fields (P.nl.pin_net q) st
      rcases record_affected_net_marks (P.nl.pin_net q) st with
        ⟨hts, hpnc, hge⟩ | ⟨hts, hpnc, _⟩
      · have hmem : P.nl.pin_net q ∈ st.ts_nets_to_update := by
          by_contra hnot
          have hv := (hmarks _ hnot).1
          rw [hq0] at hv
          exact hge (by rw [hv]; norm_num)
        refine ⟨⟨?_, ?_, ?_⟩, ?_⟩
        · exact ⟨f1.trans hcomm.1, f3.trans hcomm.2.1, f8.trans hcomm.2.2.1,
            f9.trans hcomm.2.2.2.1, fun n => by rw [f7]; exact hcomm.2.2.2.2 n⟩
        · intro n hn
          rw [hts] at hn
          exact ⟨by rw [hpnc]; exact (hmarks n hn).1,
            by rw [f7]; exact (hmarks n hn).2⟩
        · intro n i hdiff
          rw [f2, f4] at hdiff
          obtain ⟨⟨p, hp, hpn⟩, hcc⟩ := hshadow n i hdiff
          exact ⟨⟨p, by rw [f5]; exact hp, hpn⟩, hcc⟩
        · rw [hts]
          exact hmem
      · refine ⟨⟨?_, ?_, ?_⟩, ?_⟩
        · exact ⟨f1.trans hcomm.1, f3.trans hcomm.2.1, f8.trans hcomm.2.2.1,
            f9.trans hcomm.2.2.2.1, fun n => by rw [f7]; exact hcomm.2.2.2.2 n⟩
        · intro n hn
          rw [hts, List.mem_append] at hn
          push_neg at hn
          have hne : n ≠ P.nl.pin_net q := by
            intro hc
            exact hn.2 (by rw [hc]; exact List.mem_singleton_self _)
          refine ⟨?_, by rw [f7]; exact (hmarks n hn.1).2⟩
          rw [hpnc]
          simp only [fupd, if_neg hne]
          exact (hmarks n hn.1).1
        · intro n i hdiff
          rw [f2, f4] at hdiff
          obtain ⟨⟨p, hp, hpn⟩, hcc⟩ := hshadow n i hdiff
          exact ⟨⟨p, by rw [f5]; exact hp, hpn⟩, hcc⟩
        · rw [hts]
          exact List.mem_append_right _ (List.mem_singleton_self _)
    -- step 2: update_net_bb
    have hst2 : C4Inv P.nl P.moved_blocks st0
        (update_net_bb P (P.nl.pin_net q) q (record_affected_net (P.nl.pin_net q) st)) := by
      obtain ⟨⟨hcomm1, hmarks1, hshadow1⟩, hmem1⟩ := hst1
      obtain ⟨g1, g2, g3, g4, g5, g6, g7, g8, g9, g10, g11, g12, g13⟩ :=
        update_net_bb_fields P (P.nl.pin_net q) q (record_affected_net (P.nl.pin_net q) st)
      refine ⟨⟨g3.trans hcomm1.1, g5.trans hcomm1.2.1, g9.trans hcomm1.2.2.1,
        g10.trans hcomm1.2.2.2.1, fun n => ⟨(g13 n).1.trans (hcomm1.2.2.2.2 n).1,
          (g13 n).2.trans (hcomm1.2.2.2.2 n).2⟩⟩, ?_, ?_⟩
      · intro n hn
        rw [g2] at hn
        have hne : n ≠ P.nl.pin_net q := fun hc => hn (hc ▸ hmem1)
        refine ⟨by rw [g1]; exact (hmarks1 n hn).1, ?_⟩
        rw [g12 n hne]
        exact (hmarks1 n hn).2
      · intro n i hdiff
        rw [g4, g6] at hdiff
        obtain ⟨⟨p, hp, hpn⟩, hcc⟩ := hshadow1 n i hdiff
        exact ⟨⟨p, by rw [g7]; exact hp, hpn⟩, hcc⟩
    -- step 3: the timing-delta branch
    unfold process_pin
    rw [if_neg hig]
    by_cases htd : P.timing_driven = true
    · rw [if_pos htd]
      obtain ⟨hcomm2, hmarks2, hshadow2⟩ := hst2
      unfold update_td_delta_costs
      by_cases hdrv : P.nl.pin_type q = .DRIVER
      · rw [if_pos hdrv]
        obtain ⟨⟨e1, e2, e3, e4, e5, e6, e7, e8⟩, eap, _, epcd, epctc⟩ :=
          td_driver_foldl P.crit P.delay (P.nl.pin_net q) (P.nl.net_pin (P.nl.pin_net q))
            (List.range' 1 (P.nl.net_num_pins (P.nl.pin_net q) - 1))
            (update_net_bb P (P.nl.pin_net q) q (record_affected_net (P.nl.pin_net q) st))
        refine ⟨⟨e5.trans hcomm2.1, e6.trans hcomm2.2.1, e3.trans hcomm2.2.2.1,
          e8.trans hcomm2.2.2.2.1, fun n => by rw [e4]; exact hcomm2.2.2.2.2 n⟩, ?_, ?_⟩
        · intro n hn
          rw [e2] at hn
          exact ⟨by rw [e1]; exact (hmarks2 n hn).1,
            by rw [e4]; exact (hmarks2 n hn).2⟩
        · intro n i hdiff
          rw [epcd n i, epctc n i] at hdiff
          by_cases hni : n = P.nl.pin_net q ∧
            i ∈ List.range' 1 (P.nl.net_num_pins (P.nl.pin_net q) - 1)
          · obtain ⟨rfl, hi⟩ := hni
            obtain ⟨hi1, hi2⟩ := mem_sink_range hi
            constructor
            · refine ⟨P.nl.net_pin (P.nl.pin_net q) i, ?_, ?_, ?_⟩
              · rw [eap, List.mem_append]
                exact Or.inr (List.mem_map.mpr ⟨i, hi, rfl⟩)
              · exact wf.net_pin_net _ i hi2
              · exact wf.net_pin_index _ i hi2
            · obtain ⟨b, hb, hqb⟩ := hq_blk
              exact ⟨b, hb, q, hqb, rfl, hig', Or.inl ⟨hdrv, hi1, hi2⟩⟩
          · rw [if_neg hni, if_neg hni] at hdiff
            obtain ⟨⟨p, hp, hpn⟩, hcc⟩ := hshadow2 n i hdiff
            refine ⟨⟨p, ?_, hpn⟩, hcc⟩
            rw [eap, List.mem_append]
            exact Or.inl hp
      · rw [if_neg hdrv]
        by_cases hdb : driven_by_moved_block P.nl P.moved_blocks (P.nl.pin_net q) = true
        · rw [if_pos hdb]
          exact ⟨hcomm2, hmarks2, hshadow2⟩
        · rw [if_neg hdb]
          have hdb' : driven_by_moved_block P.nl P.moved_blocks (P.nl.pin_net q) = false :=
            not_ignored_false hdb
          refine ⟨⟨hcomm2.1, hcomm2.2.1, hcomm2.2.2.1, hcomm2.2.2.2.1,
            hcomm2.2.2.2.2⟩, hmarks2, ?_⟩
          intro n i hdiff
          by_cases hni : n = P.nl.pin_net q ∧ i = P.nl.pin_net_index q
          · obtain ⟨rfl, rfl⟩ := hni
            constructor
            · refine ⟨q, ?_, rfl, rfl⟩
              show q ∈ _ ++ [q]
              exact List.mem_append_right _ (List.mem_singleton_self _)
            · obtain ⟨b, hb, hqb⟩ := hq_blk
              exact ⟨b, hb, q, hqb, rfl, hig', Or.inr ⟨hdrv, hdb', rfl⟩⟩
          · simp only [td_update_one, fupd2, if_neg hni] at hdiff
            obtain ⟨⟨p, hp, hpn⟩, hcc⟩ := hshadow2 n i hdiff
            refine ⟨⟨p, ?_, hpn⟩, hcc⟩
            show p ∈ _ ++ [q]
            exact List.mem_append_left _ hp
    · rw [if_neg htd]
      exact hst2

/-- The marker invariant is preserved by the whole pin walk. -/
theorem C4Inv_foldl (P : TrialParams) (wf : NetlistWF P.nl)
    (st0 : TrialState) (hq0 : ∀ n, st0.proposed_net_cost n = -1) :
    ∀ (L : List ℕ) (st : TrialState),
      (∀ p ∈ L, ∃ b ∈ P.moved_blocks, p ∈ P.nl.block_pins b) →
      C4Inv P.nl P.moved_blocks st0 st →
      C4Inv P.nl P.moved_blocks st0 (L.foldl (process_pin P) st)
  | [], _, _, h => h
  | q :: L, st, hL, h => by
    rw [List.foldl_cons]
    exact C4Inv_foldl P wf st0 hq0 L _
      (fun p hp => hL p (List.mem_cons_of_mem _ hp))
      (C4Inv_process_pin P wf st0 st q (hL q (List.mem_cons_self _ _)) hq0 h)

/-- The net-cost loop touches only `proposed_net_cost` (at the recorded
nets) and `bb_delta_c`. -/
theorem bb_cost_loop_fields (P : TrialParams) :
    ∀ (l : List ℕ) (st : TrialState),
      (((l.foldl (fun st net =>
          let newc := get_net_cost (P.nl.net_num_pins net) P.chanx P.chany
            (st.bbs net).ts_bb_coord_new
          { st with
            proposed_net_cost := fupd st.proposed_net_cost net newc
            bb_delta_c := st.bb_delta_c + (newc - st.net_cost net) }) st)).ts_nets_to_update
          = st.ts_nets_to_update ∧
        ((l.foldl (fun st net =>
          let newc := get_net_cost (P.nl.net_num_pins net) P.chanx P.chany
            (st.bbs net).ts_bb_coord_new
          { st with
            proposed_net_cost := fupd st.proposed_net_cost net newc
            bb_delta_c := st.bb_delta_c + (newc - st.net_cost net) }) st)).bbs = st.bbs ∧
        ((l.foldl (fun st net =>
          let newc := get_net_cost (P.nl.net_num_pins net) P.chanx P.chany
            (st.bbs net).ts_bb_coord_new
          { st with
            proposed_net_cost := fupd st.proposed_net_cost net newc
            bb_delta_c := st.bb_delta_c + (newc - st.net_cost net) }) st)).connection_delay
          = st.connection_delay ∧
        ((l.foldl (fun st net =>
          let newc := get_net_cost (P.nl.net_num_pins net) P.chanx P.chany
            (st.bbs net).ts_bb_coord_new
          { st with
            proposed_net_cost := fupd st.proposed_net_cost net newc
            bb_delta_c := st.bb_delta_c + (newc - st.net_cost net) }) st)).proposed_connection_delay
          = st.proposed_connection_delay ∧
        ((l.foldl (fun st net =>
          let newc := get_net_cost (P.nl.net_num_pins net) P.chanx P.chany
            (st.bbs net).ts_bb_coord_new
          { st with
            proposed_net_cost := fupd st.proposed_net_cost net newc
            bb_delta_c := st.bb_delta_c + (newc - st.net_cost net) }) st)).connection_timing_cost
          = st.connection_timing_cost ∧
        ((l.foldl (fun st net =>
          let newc := get_net_cost (P.nl.net_num_pins net) P.chanx P.chany
            (st.bbs net).ts_bb_coord_new
          { st with
            proposed_net_cost := fupd st.proposed_net_cost net newc
            bb_delta_c := st.bb_delta_c + (newc - st.net_cost net) }) st)).proposed_connection_timing_cost
          = st.proposed_connection_timing_cost ∧
        ((l.foldl (fun st net =>
          let newc := get_net_cost (P.nl.net_num_pins net) P.chanx P.chany
            (st.bbs net).ts_bb_coord_new
          { st with
            proposed_net_cost := fupd st.proposed_net_cost net newc
            bb_delta_c := st.bb_delta_c + (newc - st.net_cost net) }) st)).affected_pins
          = st.affected_pins ∧
        ((l.foldl (fun st net =>
          let newc := get_net_cost (P.nl.net_num_pins net) P.chanx P.chany
            (st.bbs net).ts_bb_coord_new
          { st with
            proposed_net_cost := fupd st.proposed_net_cost net newc
            bb_delta_c := st.bb_delta_c + (newc - st.net_cost net) }) st)).timing_delta_c
          = st.timing_delta_c ∧
        ((l.foldl (fun st net =>
          let newc := get_net_cost (P.nl.net_num_pins net) P.chanx P.chany
            (st.bbs net).ts_bb_coord_new
          { st with
            proposed_net_cost := fupd st.proposed_net_cost net newc
            bb_delta_c := st.bb_delta_c + (newc - st.net_cost net) }) st)).net_cost
          = st.net_cost ∧
        ((l.foldl (fun st net =>
          let newc := get_net_cost (P.nl.net_num_pins net) P.chanx P.chany
            (st.bbs net).ts_bb_coord_new
          { st with
            proposed_net_cost := fupd st.proposed_net_cost net newc
            bb_delta_c := st.bb_delta_c + (newc - st.net_cost net) }) st)).timing_cost
          = st.timing_cost) ∧
      (∀ n, n ∉ l →
        ((l.foldl (fun st net =>
          let newc := get_net_cost (P.nl.net_num_pins net) P.chanx P.chany
            (st.bbs net).ts_bb_coord_new
          { st with
            proposed_net_cost := fupd st.proposed_net_cost net newc
            bb_delta_c := st.bb_delta_c + (newc - st.net_cost net) }) st)).proposed_net_cost n
          = st.proposed_net_cost n)
  | [], st => by simp
  | a :: l, st => by
    have ih := bb_cost_loop_fields P l
      ({ st with
        proposed_net_cost := fupd st.proposed_net_cost a
          (get_net_cost (P.nl.net_num_pins a) P.chanx P.chany (st.bbs a).ts_bb_coord_new)
        bb_delta_c := st.bb_delta_c
          + (get_net_cost (P.nl.net_num_pins a) P.chanx P.chany (st.bbs a).ts_bb_coord_new
            - st.net_cost a) })
    rw [List.foldl_cons]
    obtain ⟨⟨i1, i2, i3, i4, i5, i6, i7, i8, i9, i10⟩, ipnc⟩ := ih
    refine ⟨⟨i1, i2, i3, i4, i5, i6, i7, i8, i9, i10⟩, ?_⟩
    intro n hn
    rw [List.mem_cons] at hn
    push_neg at hn
    rw [ipnc n hn.2]
    simp [fupd, hn.1]

/-- Committing or resetting every recorded net quiesces `proposed_net_cost`
and the box flag for the whole array, and `update_move_net_one` folds touch
nothing of the timing shadow state. -/
theorem update_move_nets_foldl (P : TrialParams) :
    ∀ (l : List ℕ) (st : TrialState),
      ((l.foldl (update_move_net_one P) st).ts_nets_to_update = st.ts_nets_to_update ∧
        (l.foldl (update_move_net_one P) st).connection_delay = st.connection_delay ∧
        (l.foldl (update_move_net_one P) st).proposed_connection_delay
          = st.proposed_connection_delay ∧
        (l.foldl (update_move_net_one P) st).connection_timing_cost
          = st.connection_timing_cost ∧
        (l.foldl (update_move_net_one P) st).proposed_connection_timing_cost
          = st.proposed_connection_timing_cost ∧
        (l.foldl (update_move_net_one P) st).affected_pins = st.affected_pins ∧
        (l.foldl (update_move_net_one P) st).timing_delta_c = st.timing_delta_c ∧
        (l.foldl (update_move_net_one P) st).timing_cost = st.timing_cost) ∧
      (∀ n, (l.foldl (update_move_net_one P) st).proposed_net_cost n
          = if n ∈ l then -1 else st.proposed_net_cost n) ∧
      (∀ n, ((l.foldl (update_move_net_one P) st).bbs n).bb_updated
          = if n ∈ l then .NOT_UPDATED_YET else (st.bbs n).bb_updated)
  | [], st => by simp
  | a :: l, st => by
    have ih := update_move_nets_foldl P l (update_move_net_one P st a)
    rw [List.foldl_cons]
    obtain ⟨⟨i1, i2, i3, i4, i5, i6, i7, i8⟩, ipnc, iflag⟩ := ih
    refine ⟨⟨i1, i2, i3, i4, i5, i6, i7, i8⟩, ?_, ?_⟩
    · intro n
      rw [ipnc n]
      by_cases hl : n ∈ l
      · simp [hl]
      · by_cases hna : n = a
        · subst hna
          simp [hl, update_move_net_one, fupd]
        · simp [hl, hna, update_move_net_one, fupd]
    · intro n
      rw [iflag n]
      by_cases hl : n ∈ l
      · simp [hl]
      · by_cases hna : n = a
        · subst hna
          simp [hl, update_move_net_one, fupd]
        · simp [hl, hna, update_move_net_one, fupd]

/-- Resetting every recorded net quiesces the markers and touches nothing
else. -/
theorem reset_move_nets_foldl :
    ∀ (l : List ℕ) (st : TrialState),
      ((l.foldl (fun st net =>
          { st with
            proposed_net_cost := fupd st.proposed_net_cost net (-1)
            bbs := fupd st.bbs net
              { st.bbs net with bb_updated := .NOT_UPDATED_YET } }) st).ts_nets_to_update
          = st.ts_nets_to_update ∧
        (l.foldl (fun st net =>
          { st with
            proposed_net_cost := fupd st.proposed_net_cost net (-1)
            bbs := fupd st.bbs net
              { st.bbs net with bb_updated := .NOT_UPDATED_YET } }) st).connection_delay
          = st.connection_delay ∧
        (l.foldl (fun st net =>
          { st with
            proposed_net_cost := fupd st.proposed_net_cost net (-1)
            bbs := fupd st.bbs net
              { st.bbs net with bb_updated := .NOT_UPDATED_YET } }) st).proposed_connection_delay
          = st.proposed_connection_delay ∧
        (l.foldl (fun st net =>
          { st with
            proposed_net_cost := fupd st.proposed_net_cost net (-1)
            bbs := fupd st.bbs net
              { st.bbs net with bb_updated := .NOT_UPDATED_YET } }) st).connection_timing_cost
          = st.connection_timing_cost ∧
        (l.foldl (fun st net =>
          { st with
            proposed_net_cost := fupd st.proposed_net_cost net (-1)
            bbs := fupd st.bbs net
              { st.bbs net with bb_updated := .NOT_UPDATED_YET } }) st).proposed_connection_timing_cost
          = st.proposed_connection_timing_cost ∧
        (l.foldl (fun st net =>
          { st with
            proposed_net_cost := fupd st.proposed_net_cost net (-1)
            bbs := fupd st.bbs net
              { st.bbs net with bb_updated := .NOT_UPDATED_YET } }) st).affected_pins
          = st.affected_pins ∧
        (l.foldl (fun st net =>
          { st with
            proposed_net_cost := fupd st.proposed_net_cost net (-1)
            bbs := fupd st.bbs net
              { st.bbs net with bb_updated := .NOT_UPDATED_YET } }) st).timing_delta_c
          = st.timing_delta_c ∧
        (l.foldl (fun st net =>
          { st with
            proposed_net_cost := fupd st.proposed_net_cost net (-1)
            bbs := fupd st.bbs net
              { st.bbs net with bb_updated := .NOT_UPDATED_YET } }) st).net_cost = st.net_cost ∧
        (l.foldl (fun st net =>
          { st with
            proposed_net_cost := fupd st.proposed_net_cost net (-1)
            bbs := fupd st.bbs net
              { st.bbs net with bb_updated := .NOT_UPDATED_YET } }) st).timing_cost
          = st.timing_cost ∧
        (∀ n, ((l.foldl (fun st net =>
          { st with
            proposed_net_cost := fupd st.proposed_net_cost net (-1)
            bbs := fupd st.bbs net
              { st.bbs net with bb_updated := .NOT_UPDATED_YET } }) st).bbs n).bb_coords
            = (st.bbs n).bb_coords ∧
          ((l.foldl (fun st net =>
          { st with
            proposed_net_cost := fupd st.proposed_net_cost net (-1)
            bbs := fupd st.bbs net
              { st.bbs net with bb_updated := .NOT_UPDATED_YET } }) st).bbs n).bb_num_on_edges
            = (st.bbs n).bb_num_on_edges) ∧
        (∀ n, (l.foldl (fun st net =>
          { st with
            proposed_net_cost := fupd st.proposed_net_cost net (-1)
            bbs := fupd st.bbs net
              { st.bbs net with bb_updated := .NOT_UPDATED_YET } }) st).proposed_net_cost n
            = if n ∈ l then -1 else st.proposed_net_cost n) ∧
        (∀ n, ((l.foldl (fun st net =>
          { st with
            proposed_net_cost := fupd st.proposed_net_cost net (-1)
            bbs := fupd st.bbs net
              { st.bbs net with bb_updated := .NOT_UPDATED_YET } }) st).bbs n).bb_updated
            = if n ∈ l then .NOT_UPDATED_YET else (st.bbs n).bb_updated))
  | [], st => by simp
  | a :: l, st => by
    have ih := reset_move_nets_foldl l
      ({ st with
        proposed_net_cost := fupd st.proposed_net_cost a (-1)
        bbs := fupd st.bbs a { st.bbs a with bb_updated := .NOT_UPDATED_YET } })
    rw [List.foldl_cons]
    obtain ⟨i1, i2, i3, i4, i5, i6, i7, i8, i9, ibb, ipnc, iflag⟩ := ih
    refine ⟨i1, i2, i3, i4, i5, i6, i7, i8, i9, ?_, ?_, ?_⟩
    · intro n
      refine ⟨(ibb n).1.trans ?_, (ibb n).2.trans ?_⟩ <;>
        · by_cases hna : n = a
          · subst hna
            simp [fupd]
          · simp [fupd, hna]
    · intro n
      rw [ipnc n]
      by_cases hl : n ∈ l
      · simp [hl]
      · by_cases hna : n = a
        · subst hna
          simp [hl, fupd]
        · simp [hl, hna, fupd]
    · intro n
      rw [iflag n]
      by_cases hl : n ∈ l
      · simp [hl]
      · by_cases hna : n = a
        · subst hna
          simp [hl, fupd]
        · simp [hl, hna, fupd]

/-- Closed form of the driver-branch fold of `commit_td_cost`: the shadow
entries of the processed sink indices of the net become invalid, everything
outside the four connection arrays is untouched. -/
theorem commit_pin_foldl (net : ℕ) :
    ∀ (l : List ℕ) (st : TrialState),
      ((l.foldl (fun st ipin => commit_td_pin st net ipin) st).proposed_net_cost
          = st.proposed_net_cost ∧
        (l.foldl (fun st ipin => commit_td_pin st net ipin) st).ts_nets_to_update
          = st.ts_nets_to_update ∧
        (l.foldl (fun st ipin => commit_td_pin st net ipin) st).net_cost = st.net_cost ∧
        (l.foldl (fun st ipin => commit_td_pin st net ipin) st).bbs = st.bbs ∧
        (l.foldl (fun st ipin => commit_td_pin st net ipin) st).affected_pins
          = st.affected_pins ∧
        (l.foldl (fun st ipin => commit_td_pin st net ipin) st).timing_delta_c
          = st.timing_delta_c ∧
        (l.foldl (fun st ipin => commit_td_pin st net ipin) st).bb_delta_c
          = st.bb_delta_c ∧
        (l.foldl (fun st ipin => commit_td_pin st net ipin) st).timing_cost
          = st.timing_cost) ∧
      (∀ n i, (l.foldl (fun st ipin => commit_td_pin st net ipin) st).proposed_connection_delay n i
          = if n = net ∧ i ∈ l then none else st.proposed_connection_delay n i) ∧
      (∀ n i, (l.foldl (fun st ipin => commit_td_pin st net ipin)
            st).proposed_connection_timing_cost n i
          = if n = net ∧ i ∈ l then none else st.proposed_connection_timing_cost n i)
  | [], st => by simp
  | a :: l, st => by
    have ih := commit_pin_foldl net l (commit_td_pin st net a)
    rw [List.foldl_cons]
    obtain ⟨⟨i1, i2, i3, i4, i5, i6, i7, i8⟩, ipcd, ipctc⟩ := ih
    refine ⟨⟨i1, i2, i3, i4, i5, i6, i7, i8⟩, ?_, ?_⟩
    · intro n i
      rw [ipcd n i]
      by_cases hn : n = net
      · subst hn
        by_cases hia : i = a
        · subst hia
          by_cases hil : i ∈ l <;> simp [hil, commit_td_pin, fupd2, List.mem_cons]
        · by_cases hil : i ∈ l <;> simp [hil, hia, commit_td_pin, fupd2, List.mem_cons]
      · simp [hn, commit_td_pin, fupd2]
    · intro n i
      rw [ipctc n i]
      by_cases hn : n = net
      · subst hn
        by_cases hia : i = a
        · subst hia
          by_cases hil : i ∈ l <;> simp [hil, commit_td_pin, fupd2, List.mem_cons]
        · by_cases hil : i ∈ l <;> simp [hil, hia, commit_td_pin, fupd2, List.mem_cons]
      · simp [hn, commit_td_pin, fupd2]

/-- One pin's commit step: markers untouched, shadows only invalidated, and
every connection this pin commits ends invalid. -/
theorem commit_td_one_spec (nl : Netlist) (moved : List ℕ) (st : TrialState) (q : ℕ) :
    ((commit_td_one nl moved st q).proposed_net_cost = st.proposed_net_cost ∧
      (commit_td_one nl moved st q).ts_nets_to_update = st.ts_nets_to_update ∧
      (commit_td_one nl moved st q).net_cost = st.net_cost ∧
      (commit_td_one nl moved st q).bbs = st.bbs ∧
      (commit_td_one nl moved st q).affected_pins = st.affected_pins ∧
      (commit_td_one nl moved st q).timing_delta_c = st.timing_delta_c ∧
      (commit_td_one nl moved st q).bb_delta_c = st.bb_delta_c ∧
      (commit_td_one nl moved st q).timing_cost = st.timing_cost) ∧
    (∀ n i, ((commit_td_one nl moved st q).proposed_connection_delay n i = none ∨
        (commit_td_one nl moved st q).proposed_connection_delay n i
          = st.proposed_connection_delay n i) ∧
      ((commit_td_one nl moved st q).proposed_connection_timing_cost n i = none ∨
        (commit_td_one nl moved st q).proposed_connection_timing_cost n i
          = st.proposed_connection_timing_cost n i)) ∧
    (∀ n i, PinCommits nl moved q n i →
      (commit_td_one nl moved st q).proposed_connection_delay n i = none ∧
      (commit_td_one nl moved st q).proposed_connection_timing_cost n i = none) := by
  unfold commit_td_one
  by_cases hig : nl.net_is_ignored (nl.pin_net q) = true
  · rw [if_pos hig]
    refine ⟨⟨rfl, rfl, rfl, rfl, rfl, rfl, rfl, rfl⟩,
      fun n i => ⟨Or.inr rfl, Or.inr rfl⟩, ?_⟩
    rintro n i ⟨rfl, hnig, _⟩
    rw [hig] at hnig
    cases hnig
  · rw [if_neg hig]
    by_cases hdrv : nl.pin_type q = .DRIVER
    · rw [if_pos hdrv]
      obtain ⟨⟨e1, e2, e3, e4, e5, e6, e7, e8⟩, epcd, epctc⟩ :=
        commit_pin_foldl (nl.pin_net q)
          (List.range' 1 (nl.net_num_pins (nl.pin_net q) - 1)) st
      refine ⟨⟨e1, e2, e3, e4, e5, e6, e7, e8⟩, ?_, ?_⟩
      · intro n i
        rw [epcd n i, epctc n i]
        constructor <;> split_ifs <;> simp
      · rintro n i ⟨rfl, _, hcase⟩
        rcases hcase with ⟨_, hi1, hi2⟩ | ⟨hne, _, _⟩
        · have hmem : i ∈ List.range' 1 (nl.net_num_pins (nl.pin_net q) - 1) := by
            rw [List.mem_range'_1]
            omega
          rw [epcd, epctc, if_pos ⟨rfl, hmem⟩, if_pos ⟨rfl, hmem⟩]
          exact ⟨rfl, rfl⟩
        · exact absurd hdrv hne
    · rw [if_neg hdrv]
      by_cases hdb : driven_by_moved_block nl moved (nl.pin_net q) = true
      · rw [if_pos hdb]
        refine ⟨⟨rfl, rfl, rfl, rfl, rfl, rfl, rfl, rfl⟩,
          fun n i => ⟨Or.inr rfl, Or.inr rfl⟩, ?_⟩
        rintro n i ⟨rfl, _, hcase⟩
        rcases hcase with ⟨hd, _, _⟩ | ⟨_, hfalse, _⟩
        · exact absurd hd hdrv
        · rw [hdb] at hfalse
          cases hfalse
      · rw [if_neg hdb]
        refine ⟨⟨rfl, rfl, rfl, rfl, rfl, rfl, rfl, rfl⟩, ?_, ?_⟩
        · intro n i
          constructor <;>
            · show (if _ then _ else _) = none ∨ (if _ then _ else _) = _
              split_ifs <;> simp
        · rintro n i ⟨rfl, _, hcase⟩
          rcases hcase with ⟨hd, _, _⟩ | ⟨_, _, hidx⟩
          · exact absurd hd hdrv
          · subst hidx
            exact ⟨by simp [commit_td_pin, fupd2], by simp [commit_td_pin, fupd2]⟩

/-- The whole commit walk: markers untouched, shadows only invalidated, and
every connection committed by some walked pin ends invalid. -/
theorem commit_fold_spec (nl : Netlist) (moved : List ℕ) :
    ∀ (L : List ℕ) (st : TrialState),
      ((L.foldl (commit_td_one nl moved) st).proposed_net_cost = st.proposed_net_cost ∧
        (L.foldl (commit_td_one nl moved) st).ts_nets_to_update = st.ts_nets_to_update ∧
        (L.foldl (commit_td_one nl moved) st).net_cost = st.net_cost ∧
        (L.foldl (commit_td_one nl moved) st).bbs = st.bbs ∧
        (L.foldl (commit_td_one nl moved) st).affected_pins = st.affected_pins ∧
        (L.foldl (commit_td_one nl moved) st).timing_delta_c = st.timing_delta_c ∧
        (L.foldl (commit_td_one nl moved) st).bb_delta_c = st.bb_delta_c ∧
        (L.foldl (commit_td_one nl moved) st).timing_cost = st.timing_cost) ∧
      (∀ n i, ((L.foldl (commit_td_one nl moved) st).proposed_connection_delay n i = none ∨
          (L.foldl (commit_td_one nl moved) st).proposed_connection_delay n i
            = st.proposed_connection_delay n i) ∧
        ((L.foldl (commit_td_one nl moved) st).proposed_connection_timing_cost n i = none ∨
          (L.foldl (commit_td_one nl moved) st).proposed_connection_timing_cost n i
            = st.proposed_connection_timing_cost n i)) ∧
      (∀ n i, (∃ q ∈ L, PinCommits nl moved q n i) →
        (L.foldl (commit_td_one nl moved) st).proposed_connection_delay n i = none ∧
        (L.foldl (commit_td_one nl moved) st).proposed_connection_timing_cost n i = none)
  | [], st => by simp
  | q :: L, st => by
    have hone := commit_td_one_spec nl moved st q
    have ih := commit_fold_spec nl moved L (commit_td_one nl moved st q)
    rw [List.foldl_cons]
    obtain ⟨⟨o1, o2, o3, o4, o5, o6, o7, o8⟩, oshadow, ocov⟩ := hone
    obtain ⟨⟨i1, i2, i3, i4, i5, i6, i7, i8⟩, ishadow, icov⟩ := ih
    refine ⟨⟨i1.trans o1, i2.trans o2, i3.trans o3, i4.trans o4, i5.trans o5,
      i6.trans o6, i7.trans o7, i8.trans o8⟩, ?_, ?_⟩
    · intro n i
      constructor
      · rcases (ishadow n i).1 with h | h
        · exact Or.inl h
        · rw [h]
          exact (oshadow n i).1
      · rcases (ishadow n i).2 with h | h
        · exact Or.inl h
        · rw [h]
          exact (oshadow n i).2
    · rintro n i ⟨q', hq', hPC⟩
      rcases List.mem_cons.mp hq' with rfl | hq'L
      · have hcov := ocov n i hPC
        constructor
        · rcases (ishadow n i).1 with h | h
          · exact h
          · rw [h, hcov.1]
        · rcases (ishadow n i).2 with h | h
          · exact h
          · rw [h, hcov.2]
      · exact icov n i ⟨q', hq'L, hPC⟩

/-- The revert walk over a pin list: every addressed shadow entry becomes
invalid, every other entry and all other fields are untouched. -/
theorem revert_foldl (nl : Netlist) :
    ∀ (l : List ℕ) (st : TrialState),
      ((l.foldl (fun st pin =>
          { st with
            proposed_connection_delay := fupd2 st.proposed_connection_delay
              (nl.pin_net pin) (nl.pin_net_index pin) none
            proposed_connection_timing_cost := fupd2 st.proposed_connection_timing_cost
              (nl.pin_net pin) (nl.pin_net_index pin) none }) st).proposed_net_cost
          = st.proposed_net_cost ∧
        (l.foldl (fun st pin =>
          { st with
            proposed_connection_delay := fupd2 st.proposed_connection_delay
              (nl.pin_net pin) (nl.pin_net_index pin) none
            proposed_connection_timing_cost := fupd2 st.proposed_connection_timing_cost
              (nl.pin_net pin) (nl.pin_net_index pin) none }) st).ts_nets_to_update
          = st.ts_nets_to_update ∧
        (l.foldl (fun st pin =>
          { st with
            proposed_connection_delay := fupd2 st.proposed_connection_delay
              (nl.pin_net pin) (nl.pin_net_index pin) none
            proposed_connection_timing_cost := fupd2 st.proposed_connection_timing_cost
              (nl.pin_net pin) (nl.pin_net_index pin) none }) st).net_cost = st.net_cost ∧
        (l.foldl (fun st pin =>
          { st with
            proposed_connection_delay := fupd2 st.proposed_connection_delay
              (nl.pin_net pin) (nl.pin_net_index pin) none
            proposed_connection_timing_cost := fupd2 st.proposed_connection_timing_cost
              (nl.pin_net pin) (nl.pin_net_index pin) none }) st).bbs = st.bbs ∧
        (l.foldl (fun st pin =>
          { st with
            proposed_connection_delay := fupd2 st.proposed_connection_delay
              (nl.pin_net pin) (nl.pin_net_index pin) none
            proposed_connection_timing_cost := fupd2 st.proposed_connection_timing_cost
              (nl.pin_net pin) (nl.pin_net_index pin) none }) st).affected_pins
          = st.affected_pins ∧
        (l.foldl (fun st pin =>
          { st with
            proposed_connection_delay := fupd2 st.proposed_connection_delay
              (nl.pin_net pin) (nl.pin_net_index pin) none
            proposed_connection_timing_cost := fupd2 st.proposed_connection_timing_cost
              (nl.pin_net pin) (nl.pin_net_index pin) none }) st).timing_delta_c
          = st.timing_delta_c ∧
        (l.foldl (fun st pin =>
          { st with
            proposed_connection_delay := fupd2 st.proposed_connection_delay
              (nl.pin_net pin) (nl.pin_net_index pin) none
            proposed_connection_timing_cost := fupd2 st.proposed_connection_timing_cost
              (nl.pin_net pin) (nl.pin_net_index pin) none }) st).connection_delay
          = st.connection_delay ∧
        (l.foldl (fun st pin =>
          { st with
            proposed_connection_delay := fupd2 st.proposed_connection_delay
              (nl.pin_net pin) (nl.pin_net_index pin) none
            proposed_connection_timing_cost := fupd2 st.proposed_connection_timing_cost
              (nl.pin_net pin) (nl.pin_net_index pin) none }) st).connection_timing_cost
          = st.connection_timing_cost ∧
        (l.foldl (fun st pin =>
          { st with
            proposed_connection_delay := fupd2 st.proposed_connection_delay
              (nl.pin_net pin) (nl.pin_net_index pin) none
            proposed_connection_timing_cost := fupd2 st.proposed_connection_timing_cost
              (nl.pin_net pin) (nl.pin_net_index pin) none }) st).timing_cost
          = st.timing_cost) ∧
      (∀ n i, ((l.foldl (fun st pin =>
          { st with
            proposed_connection_delay := fupd2 st.proposed_connection_delay
              (nl.pin_net pin) (nl.pin_net_index pin) none
            proposed_connection_timing_cost := fupd2 st.proposed_connection_timing_cost
              (nl.pin_net pin) (nl.pin_net_index pin) none }) st).proposed_connection_delay n i
            = none ∨
          (l.foldl (fun st pin =>
          { st with
            proposed_connection_delay := fupd2 st.proposed_connection_delay
              (nl.pin_net pin) (nl.pin_net_index pin) none
            proposed_connection_timing_cost := fupd2 st.proposed_connection_timing_cost
              (nl.pin_net pin) (nl.pin_net_index pin) none }) st).proposed_connection_delay n i
            = st.proposed_connection_delay n i) ∧
        ((l.foldl (fun st pin =>
          { st with
            proposed_connection_delay := fupd2 st.proposed_connection_delay
              (nl.pin_net pin) (nl.pin_net_index pin) none
            proposed_connection_timing_cost := fupd2 st.proposed_connection_timing_cost
              (nl.pin_net pin) (nl.pin_net_index pin) none }) st).proposed_connection_timing_cost
              n i = none ∨
          (l.foldl (fun st pin =>
          { st with
            proposed_connection_delay := fupd2 st.proposed_connection_delay
              (nl.pin_net pin) (nl.pin_net_index pin) none
            proposed_connection_timing_cost := fupd2 st.proposed_connection_timing_cost
              (nl.pin_net pin) (nl.pin_net_index pin) none }) st).proposed_connection_timing_cost
              n i = st.proposed_connection_timing_cost n i)) ∧
      (∀ n i, (∃ p ∈ l, nl.pin_net p = n ∧ nl.pin_net_index p = i) →
        (l.foldl (fun st pin =>
          { st with
            proposed_connection_delay := fupd2 st.proposed_connection_delay
              (nl.pin_net pin) (nl.pin_net_index pin) none
            proposed_connection_timing_cost := fupd2 st.proposed_connection_timing_cost
              (nl.pin_net pin) (nl.pin_net_index pin) none }) st).proposed_connection_delay n i
          = none ∧
        (l.foldl (fun st pin =>
          { st with
            proposed_connection_delay := fupd2 st.proposed_connection_delay
              (nl.pin_net pin) (nl.pin_net_index pin) none
            proposed_connection_timing_cost := fupd2 st.proposed_connection_timing_cost
              (nl.pin_net pin) (nl.pin_net_index pin) none }) st).proposed_connection_timing_cost
          n i = none)
  | [], st => by simp
  | p0 :: l, st => by
    have ih := revert_foldl nl l
      ({ st with
        proposed_connection_delay := fupd2 st.proposed_connection_delay
          (nl.pin_net p0) (nl.pin_net_index p0) none
        proposed_connection_timing_cost := fupd2 st.proposed_connection_timing_cost
          (nl.pin_net p0) (nl.pin_net_index p0) none })
    rw [List.foldl_cons]
    obtain ⟨⟨i1, i2, i3, i4, i5, i6, i7, i8, i9⟩, ishadow, icov⟩ := ih
    refine ⟨⟨i1, i2, i3, i4, i5, i6, i7, i8, i9⟩, ?_, ?_⟩
    · intro n i
      constructor
      · rcases (ishadow n i).1 with h | h
        · exact Or.inl h
        · rw [h]
          show fupd2 _ _ _ _ _ _ = none ∨ fupd2 _ _ _ _ _ _ = _
          unfold fupd2
          split_ifs <;> simp
      · rcases (ishadow n i).2 with h | h
        · exact Or.inl h
        · rw [h]
          show fupd2 _ _ _ _ _ _ = none ∨ fupd2 _ _ _ _ _ _ = _
          unfold fupd2
          split_ifs <;> simp
    · rintro n i ⟨p, hp, hpn, hpi⟩
      rcases List.mem_cons.mp hp with rfl | hpl
      · constructor
        · rcases (ishadow n i).1 with h | h
          · exact h
          · rw [h]
            subst hpn
            subst hpi
            simp [fupd2]
        · rcases (ishadow n i).2 with h | h
          · exact h
          · rw [h]
            subst hpn
            subst hpi
            simp [fupd2]
      · exact icov n i ⟨p, hpl, hpn, hpi⟩

/-- Field-level spec of the net-cost loop `bb_cost_loop`: everything but
`proposed_net_cost` (at the recorded nets) and `bb_delta_c` is untouched. -/
theorem bb_cost_loop_spec (P : TrialParams) (st : TrialState) :
    (bb_cost_loop P st).ts_nets_to_update = st.ts_nets_to_update ∧
    (bb_cost_loop P st).bbs = st.bbs ∧
    (bb_cost_loop P st).connection_delay = st.connection_delay ∧
    (bb_cost_loop P st).proposed_connection_delay = st.proposed_connection_delay ∧
    (bb_cost_loop P st).connection_timing_cost = st.connection_timing_cost ∧
    (bb_cost_loop P st).proposed_connection_timing_cost
      = st.proposed_connection_timing_cost ∧
    (bb_cost_loop P st).affected_pins = st.affected_pins ∧
    (bb_cost_loop P st).net_cost = st.net_cost ∧
    (bb_cost_loop P st).timing_cost = st.timing_cost ∧
    (∀ n, n ∉ st.ts_nets_to_update →
      (bb_cost_loop P st).proposed_net_cost n = st.proposed_net_cost n) := by
  obtain ⟨⟨i1, i2, i3, i4, i5, i6, i7, _, i9, i10⟩, ipnc⟩ :=
    bb_cost_loop_fields P st.ts_nets_to_update st
  exact ⟨i1, i2, i3, i4, i5, i6, i7, i9, i10, ipnc⟩

/-- Field-level spec of `update_move_nets`: the timing state is untouched
and the net markers of every recorded net are quiesced. -/
theorem update_move_nets_spec (P : TrialParams) (st : TrialState) :
    ((update_move_nets P st).connection_delay = st.connection_delay ∧
      (update_move_nets P st).proposed_connection_delay = st.proposed_connection_delay ∧
      (update_move_nets P st).connection_timing_cost = st.connection_timing_cost ∧
      (update_move_nets P st).proposed_connection_timing_cost
        = st.proposed_connection_timing_cost ∧
      (update_move_nets P st).timing_cost = st.timing_cost) ∧
    (∀ n, (update_move_nets P st).proposed_net_cost n
        = if n ∈ st.ts_nets_to_update then -1 else st.proposed_net_cost n) ∧
    (∀ n, ((update_move_nets P st).bbs n).bb_updated
        = if n ∈ st.ts_nets_to_update then .NOT_UPDATED_YET
          else (st.bbs n).bb_updated) := by
  obtain ⟨⟨_, i2, i3, i4, i5, _, _, i8⟩, ipnc, iflag⟩ :=
    update_move_nets_foldl P st.ts_nets_to_update st
  exact ⟨⟨i2, i3, i4, i5, i8⟩, ipnc, iflag⟩

/-- Field-level spec of `reset_move_nets`: the committed state and the
timing shadows are untouched and the net markers of every recorded net are
quiesced. -/
theorem reset_move_nets_spec (st : TrialState) :
    ((reset_move_nets st).connection_delay = st.connection_delay ∧
      (reset_move_nets st).proposed_connection_delay = st.proposed_connection_delay ∧
      (reset_move_nets st).connection_timing_cost = st.connection_timing_cost ∧
      (reset_move_nets st).proposed_connection_timing_cost
        = st.proposed_connection_timing_cost ∧
      (reset_move_nets st).affected_pins = st.affected_pins ∧
      (reset_move_nets st).net_cost = st.net_cost ∧
      (reset_move_nets st).timing_cost = st.timing_cost ∧
      (∀ n, ((reset_move_nets st).bbs n).bb_coords = (st.bbs n).bb_coords ∧
        ((reset_move_nets st).bbs n).bb_num_on_edges = (st.bbs n).bb_num_on_edges)) ∧
    (∀ n, (reset_move_nets st).proposed_net_cost n
        = if n ∈ st.ts_nets_to_update then -1 else st.proposed_net_cost n) ∧
    (∀ n, ((reset_move_nets st).bbs n).bb_updated
        = if n ∈ st.ts_nets_to_update then .NOT_UPDATED_YET
          else (st.bbs n).bb_updated) := by
  obtain ⟨i1, i2, i3, i4, i5, i6, _, i8, i9, ibb, ipnc, iflag⟩ :=
    reset_move_nets_foldl st.ts_nets_to_update st
  exact ⟨⟨i2, i3, i4, i5, i6, i8, i9, ibb⟩, ipnc, iflag⟩

/-- Field-level spec of `commit_td_cost` over the whole moved-block walk,
with the cover condition phrased through `CommitCovers`. -/
theorem commit_td_cost_spec (nl : Netlist) (moved : List ℕ) (st : TrialState) :
    ((commit_td_cost nl moved st).proposed_net_cost = st.proposed_net_cost ∧
      (commit_td_cost nl moved st).ts_nets_to_update = st.ts_nets_to_update ∧
      (commit_td_cost nl moved st).net_cost = st.net_cost ∧
      (commit_td_cost nl moved st).bbs = st.bbs ∧
      (commit_td_cost nl moved st).affected_pins = st.affected_pins ∧
      (commit_td_cost nl moved st).timing_delta_c = st.timing_delta_c) ∧
    (∀ n i, ((commit_td_cost nl moved st).proposed_connection_delay n i = none ∨
        (commit_td_cost nl moved st).proposed_connection_delay n i
          = st.proposed_connection_delay n i) ∧
      ((commit_td_cost nl moved st).proposed_connection_timing_cost n i = none ∨
        (commit_td_cost nl moved st).proposed_connection_timing_cost n i
          = st.proposed_connection_timing_cost n i)) ∧
    (∀ n i, CommitCovers nl moved n i →
      (commit_td_cost nl moved st).proposed_connection_delay n i = none ∧
      (commit_td_cost nl moved st).proposed_connection_timing_cost n i = none) := by
  have hflat : commit_td_cost nl moved st
      = (moved.flatMap nl.block_pins).foldl (commit_td_one nl moved) st :=
    foldl_flatMap nl.block_pins (commit_td_one nl moved) moved st
  rw [hflat]
  obtain ⟨⟨k1, k2, k3, k4, k5, k6, _, _⟩, ksh, kcov⟩ :=
    commit_fold_spec nl moved (moved.flatMap nl.block_pins) st
  refine ⟨⟨k1, k2, k3, k4, k5, k6⟩, ksh, ?_⟩
  rintro n i ⟨b, hb, p, hp, hPC⟩
  exact kcov n i ⟨p, List.mem_flatMap.mpr ⟨b, hb, hp⟩, hPC⟩

/-- Field-level spec of `revert_td_cost`: shadows only invalidated, every
entry addressed by an affected pin invalidated, everything else untouched. -/
theorem revert_td_cost_spec (nl : Netlist) (st : TrialState) :
    ((revert_td_cost nl st).proposed_net_cost = st.proposed_net_cost ∧
      (revert_td_cost nl st).bbs = st.bbs ∧
      (revert_td_cost nl st).net_cost = st.net_cost ∧
      (revert_td_cost nl st).connection_delay = st.connection_delay ∧
      (revert_td_cost nl st).connection_timing_cost = st.connection_timing_cost ∧
      (revert_td_cost nl st).timing_cost = st.timing_cost) ∧
    (∀ n i, ((revert_td_cost nl st).proposed_connection_delay n i = none ∨
        (revert_td_cost nl st).proposed_connection_delay n i
          = st.proposed_connection_delay n i) ∧
      ((revert_td_cost nl st).proposed_connection_timing_cost n i = none ∨
        (revert_td_cost nl st).proposed_connection_timing_cost n i
          = st.proposed_connection_timing_cost n i)) ∧
    (∀ n i, (∃ p ∈ st.affected_pins, nl.pin_net p = n ∧ nl.pin_net_index p = i) →
      (revert_td_cost nl st).proposed_connection_delay n i = none ∧
      (revert_td_cost nl st).proposed_connection_timing_cost n i = none) := by
  obtain ⟨⟨f1, _, f3, f4, _, _, f7, f8, f9⟩, sh, cov⟩ :=
    revert_foldl nl st.affected_pins st
  exact ⟨⟨f1, f4, f3, f7, f8, f9⟩, sh, cov⟩

/-- Without timing-driven placement the affected-net walk never touches
the timing shadow arrays. -/
theorem process_fold_shadows_nontd (P : TrialParams) (htd : P.timing_driven = false) :
    ∀ (L : List ℕ) (st : TrialState),
      (L.foldl (process_pin P) st).proposed_connection_delay
        = st.proposed_connection_delay ∧
      (L.foldl (process_pin P) st).proposed_connection_timing_cost
        = st.proposed_connection_timing_cost
  | [], _ => ⟨rfl, rfl⟩
  | q :: L, st => by
    have ih := process_fold_shadows_nontd P htd L (process_pin P st q)
    rw [List.foldl_cons]
    have hone : (process_pin P st q).proposed_connection_delay
          = st.proposed_connection_delay ∧
        (process_pin P st q).proposed_connection_timing_cost
          = st.proposed_connection_timing_cost := by
      unfold process_pin
      by_cases hig : P.nl.net_is_ignored (P.nl.pin_net q) = true
      · rw [if_pos hig]
        exact ⟨rfl, rfl⟩
      · rw [if_neg hig, if_neg (by rw [htd]; exact Bool.false_ne_true)]
        obtain ⟨_, f2, _, f4, _⟩ := record_affected_net_fields (P.nl.pin_net q) st
        obtain ⟨_, _, _, g4, _, g6, _⟩ :=
          update_net_bb_fields P (P.nl.pin_net q) q (record_affected_net (P.nl.pin_net q) st)
        exact ⟨g4.trans f2, g6.trans f4⟩
    exact ⟨ih.1.trans hone.1, ih.2.trans hone.2⟩

/-- `update_move_nets` quiesces the markers of a state whose unrecorded
markers are already at their sentinels and whose shadows are all invalid. -/
theorem update_move_nets_quiesce (P : TrialParams) (st : TrialState)
    (hpnc : ∀ n, n ∉ st.ts_nets_to_update → st.proposed_net_cost n = -1)
    (hflag : ∀ n, n ∉ st.ts_nets_to_update → (st.bbs n).bb_updated = .NOT_UPDATED_YET)
    (hpcd : ∀ n i, st.proposed_connection_delay n i = none)
    (hpctc : ∀ n i, st.proposed_connection_timing_cost n i = none) :
    markers_quiesced (update_move_nets P st) := by
  obtain ⟨⟨_, m2, _, m4, _⟩, mpnc, mflag⟩ := update_move_nets_spec P st
  refine ⟨?_, ?_, ?_, ?_⟩
  · intro n
    rw [mpnc n]
    split_ifs with h
    · rfl
    · exact hpnc n h
  · intro n
    rw [mflag n]
    split_ifs with h
    · rfl
    · exact hflag n h
  · intro n i
    rw [m2]
    exact hpcd n i
  · intro n i
    rw [m4]
    exact hpctc n i

/-- The concrete netlist `wit_nl` satisfies the interface contracts. -/
theorem wit_nl_wf : NetlistWF wit_nl := by
  refine ⟨?_, ?_, ?_, ?_, ?_, ?_, ?_⟩
  · intro n i hi
    by_cases hn : n = 0
    · subst hn
      simp only [wit_nl, if_true] at hi ⊢
      split_ifs <;> omega
    · simp [wit_nl, hn] at hi
  · intro n i hi
    by_cases hn : n = 0
    · subst hn
      simp only [wit_nl, if_true] at hi ⊢
      split_ifs <;> omega
    · simp [wit_nl, hn] at hi
  · intro b p hp
    simp only [wit_nl] at hp ⊢
    split_ifs at hp with h1 h2
    · subst h1
      simp at hp
      omega
    · subst h2
      simp at hp
      omega
    · simp at hp
  · intro b
    simp only [wit_nl]
    split_ifs <;> simp
  · intro p hp
    simp only [wit_nl] at hp ⊢
    by_cases h1 : p = 1
    · rw [if_pos h1] at hp
      cases hp
    · by_cases h0 : p ≤ 1
      · have hp0 : p = 0 := by omega
        subst hp0
        simp
      · rw [if_neg h0, if_neg (by omega : ¬ p = 0)]
  · intro n
    simp only [wit_nl]
    by_cases hn : n = 0
    · subst hn
      simp
    · rw [if_neg hn]
  · intro p hp
    simp only [wit_nl] at hp ⊢
    by_cases h1 : p = 1
    · subst h1
      simp
    · rw [if_neg h1] at hp
      cases hp

/-- **C4.** From a quiesced trial state, running the affected-net walk of
`try_swap` and then either the accepting path (`commit_td_cost` followed by
`update_move_nets`) or the rejecting path (`reset_move_nets` followed, for
timing-driven placement, by `revert_td_cost`) leaves every marker back at
its sentinel: `proposed_net_cost[*] = -1`, `bb_updated[*] = NOT_UPDATED_YET`
and every shadow connection entry invalid; moreover the rejecting path
leaves the committed arrays, per-net costs, boxes and `timing_cost`
unchanged.  (An aborted trial leaves the state untouched, so its
quiescence is the hypothesis itself.) -/
theorem trial_markers_quiesced (P : TrialParams) (wf : NetlistWF P.nl)
    (st0 : TrialState) (hq : markers_quiesced st0) :
    markers_quiesced (try_swap_commit P (find_affected_nets_and_update_costs P st0)) ∧
    markers_quiesced (try_swap_revert P (find_affected_nets_and_update_costs P st0)) ∧
    committed_eq st0 (try_swap_revert P (find_affected_nets_and_update_costs P st0)) := by
  obtain ⟨hq1, hq2, hq3, hq4⟩ := hq
  unfold find_affected_nets_and_update_costs
  have hinv1 : C4Inv P.nl P.moved_blocks st0 (process_blocks P st0) := by
    rw [show process_blocks P st0
        = (P.moved_blocks.flatMap P.nl.block_pins).foldl (process_pin P) st0
      from foldl_flatMap P.nl.block_pins (process_pin P) P.moved_blocks st0]
    refine C4Inv_foldl P wf st0 hq1 _ st0 ?_ ?_
    · intro p hp
      obtain ⟨b, hb, hpb⟩ := List.mem_flatMap.mp hp
      exact ⟨b, hb, hpb⟩
    · exact ⟨⟨rfl, rfl, rfl, rfl, fun n => ⟨rfl, rfl⟩⟩, fun n _ => ⟨rfl, rfl⟩,
        fun n i hd => (hd.elim (fun h => (h rfl).elim) (fun h => (h rfl).elim))⟩
  obtain ⟨c1, c2, c3, c4, c5, c6, c7, c8, c9, c10⟩ :=
    bb_cost_loop_spec P (process_blocks P st0)
  have hinv2 : C4Inv P.nl P.moved_blocks st0 (bb_cost_loop P (process_blocks P st0)) := by
    obtain ⟨hcomm, hmarks, hshadow⟩ := hinv1
    refine ⟨⟨c3.trans hcomm.1, c5.trans hcomm.2.1, c8.trans hcomm.2.2.1,
      c9.trans hcomm.2.2.2.1, fun n => by rw [c2]; exact hcomm.2.2.2.2 n⟩, ?_, ?_⟩
    · intro n hn
      rw [c1] at hn
      exact ⟨(c10 n hn).trans (hmarks n hn).1, by rw [c2]; exact (hmarks n hn).2⟩
    · intro n i hdiff
      rw [c4, c6] at hdiff
      obtain ⟨⟨p, hp, hpn⟩, hcc⟩ := hshadow n i hdiff
      exact ⟨⟨p, by rw [c7]; exact hp, hpn⟩, hcc⟩
  obtain ⟨⟨hc1, hc2, hc3, hc4, hc5⟩, hmk, hsh⟩ := hinv2
  have hnontd : P.timing_driven = false →
      (bb_cost_loop P (process_blocks P st0)).proposed_connection_delay
        = st0.proposed_connection_delay ∧
      (bb_cost_loop P (process_blocks P st0)).proposed_connection_timing_cost
        = st0.proposed_connection_timing_cost := by
    intro htd
    have hpb : (process_blocks P st0).proposed_connection_delay
          = st0.proposed_connection_delay ∧
        (process_blocks P st0).proposed_connection_timing_cost
          = st0.proposed_connection_timing_cost := by
      rw [show process_blocks P st0
          = (P.moved_blocks.flatMap P.nl.block_pins).foldl (process_pin P) st0
        from foldl_flatMap P.nl.block_pins (process_pin P) P.moved_blocks st0]
      exact process_fold_shadows_nontd P htd _ st0
    exact ⟨c4.trans hpb.1, c6.trans hpb.2⟩
  obtain ⟨⟨r1, r2, r3, r4, r5, r6, r7, r8⟩, rpnc, rflag⟩ :=
    reset_move_nets_spec (bb_cost_loop P (process_blocks P st0))
  obtain ⟨⟨v1, v2, v3, v4, v5, v6⟩, vsh, vcov⟩ :=
    revert_td_cost_spec P.nl (reset_move_nets (bb_cost_loop P (process_blocks P st0)))
  refine ⟨?_, ?_, ?_⟩
  · -- the accepting path
    unfold try_swap_commit
    by_cases htd : P.timing_driven = true
    · rw [if_pos htd]
      obtain ⟨⟨k1, k2, _, k4, _, _⟩, ksh, kcov⟩ :=
        commit_td_cost_spec P.nl P.moved_blocks (bb_cost_loop P (process_blocks P st0))
      refine update_move_nets_quiesce P _ ?_ ?_ ?_ ?_
      · intro n hn
        show (commit_td_cost P.nl P.moved_blocks
          (bb_cost_loop P (process_blocks P st0))).proposed_net_cost n = -1
        rw [k1]
        have hn2 : n ∉ (bb_cost_loop P (process_blocks P st0)).ts_nets_to_update := by
          rw [← k2]
          exact hn
        rw [(hmk n hn2).1]
        exact hq1 n
      · intro n hn
        show ((commit_td_cost P.nl P.moved_blocks
          (bb_cost_loop P (process_blocks P st0))).bbs n).bb_updated = .NOT_UPDATED_YET
        rw [k4]
        have hn2 : n ∉ (bb_cost_loop P (process_blocks P st0)).ts_nets_to_update := by
          rw [← k2]
          exact hn
        rw [(hmk n hn2).2]
        exact hq2 n
      · intro n i
        show (commit_td_cost P.nl P.moved_blocks
          (bb_cost_loop P (process_blocks P st0))).proposed_connection_delay n i = none
        by_cases hdiff : (bb_cost_loop P (process_blocks P st0)).proposed_connection_delay n i
            = st0.proposed_connection_delay n i
        · rcases (ksh n i).1 with h | h
          · exact h
          · rw [h, hdiff]
            exact hq3 n i
        · exact (kcov n i (hsh n i (Or.inl hdiff)).2).1
      · intro n i
        show (commit_td_cost P.nl P.moved_blocks
          (bb_cost_loop P (process_blocks P st0))).proposed_connection_timing_cost n i = none
        by_cases hdiff : (bb_cost_loop P
              (process_blocks P st0)).proposed_connection_timing_cost n i
            = st0.proposed_connection_timing_cost n i
        · rcases (ksh n i).2 with h | h
          · exact h
          · rw [h, hdiff]
            exact hq4 n i
        · exact (kcov n i (hsh n i (Or.inr hdiff)).2).2
    · rw [if_neg htd]
      have htd' : P.timing_driven = false := not_ignored_false htd
      refine update_move_nets_quiesce P _ ?_ ?_ ?_ ?_
      · intro n hn
        rw [(hmk n hn).1]
        exact hq1 n
      · intro n hn
        rw [(hmk n hn).2]
        exact hq2 n
      · intro n i
        rw [(hnontd htd').1]
        exact hq3 n i
      · intro n i
        rw [(hnontd htd').2]
        exact hq4 n i
  · -- the rejecting path: markers
    unfold try_swap_revert
    by_cases htd : P.timing_driven = true
    · rw [if_pos htd]
      refine ⟨?_, ?_, ?_, ?_⟩
      · intro n
        rw [v1, rpnc n]
        split_ifs with h
        · rfl
        · rw [(hmk n h).1]
          exact hq1 n
      · intro n
        rw [v2, rflag n]
        split_ifs with h
        · rfl
        · rw [(hmk n h).2]
          exact hq2 n
      · intro n i
        by_cases hdiff : (bb_cost_loop P (process_blocks P st0)).proposed_connection_delay n i
            = st0.proposed_connection_delay n i
        · rcases (vsh n i).1 with h | h
          · exact h
          · rw [h, r2, hdiff]
            exact hq3 n i
        · obtain ⟨⟨p, hp, hpn, hpi⟩, _⟩ := hsh n i (Or.inl hdiff)
          refine (vcov n i ⟨p, ?_, hpn, hpi⟩).1
          rw [r5]
          exact hp
      · intro n i
        by_cases hdiff : (bb_cost_loop P
              (process_blocks P st0)).proposed_connection_timing_cost n i
            = st0.proposed_connection_timing_cost n i
        · rcases (vsh n i).2 with h | h
          · exact h
          · rw [h, r4, hdiff]
            exact hq4 n i
        · obtain ⟨⟨p, hp, hpn, hpi⟩, _⟩ := hsh n i (Or.inr hdiff)
          refine (vcov n i ⟨p, ?_, hpn, hpi⟩).2
          rw [r5]
          exact hp
    · rw [if_neg htd]
      have htd' : P.timing_driven = false := not_ignored_false htd
      refine ⟨?_, ?_, ?_, ?_⟩
      · intro n
        rw [rpnc n]
        split_ifs with h
        · rfl
        · rw [(hmk n h).1]
          exact hq1 n
      · intro n
        rw [rflag n]
        split_ifs with h
        · rfl
        · rw [(hmk n h).2]
          exact hq2 n
      · intro n i
        rw [r2, (hnontd htd').1]
        exact hq3 n i
      · intro n i
        rw [r4, (hnontd htd').2]
        exact hq4 n i
  · -- the rejecting path: committed state unchanged
    unfold try_swap_revert
    by_cases htd : P.timing_driven = true
    · rw [if_pos htd]
      exact ⟨v4.trans (r1.trans hc1), v5.trans (r3.trans hc2), v3.trans (r6.trans hc3),
        v6.trans (r7.trans hc4),
        fun n => ⟨by rw [v2]; exact (r8 n).1.trans (hc5 n).1,
          by rw [v2]; exact (r8 n).2.trans (hc5 n).2⟩⟩
    · rw [if_neg htd]
      exact ⟨r1.trans hc1, r3.trans hc2, r6.trans hc3, r7.trans hc4,
        fun n => ⟨(r8 n).1.trans (hc5 n).1, (r8 n).2.trans (hc5 n).2⟩⟩

/-- Evaluation of `trial_markers_quiesced` on the concrete two-pin netlist
`wit_nl`, the timing-driven move `wit_P` and the quiesced state `wit_st0`. -/
theorem trial_markers_quiesced_witness :
    markers_quiesced (try_swap_commit wit_P (find_affected_nets_and_update_costs wit_P wit_st0)) ∧
    markers_quiesced (try_swap_revert wit_P (find_affected_nets_and_update_costs wit_P wit_st0)) ∧
    committed_eq wit_st0 (try_swap_revert wit_P (find_affected_nets_and_update_costs wit_P wit_st0)) :=
  trial_markers_quiesced wit_P wit_nl_wf wit_st0
    ⟨fun _ => rfl, fun _ => rfl, fun _ _ => rfl, fun _ _ => rfl⟩

/-- Processing one pin of a moved block preserves the timing-delta
invariant, extending the processed-pin list by that pin. -/
theorem TdInv_process_pin (P : TrialParams) (wf : NetlistWF P.nl)
    (htd : P.timing_driven = true) (processed : List ℕ)
    (st0 st : TrialState) (q : ℕ)
    (hq_blk : ∃ b ∈ P.moved_blocks, q ∈ P.nl.block_pins b)
    (hqp : q ∉ processed)
    (hinv : TdInv P.nl P.crit P.delay P.moved_blocks processed st0 st) :
    TdInv P.nl P.crit P.delay P.moved_blocks (processed ++ [q]) st0
      (process_pin P st q) := by
  obtain ⟨T1, T2, T3, T4, T5, T6⟩ := hinv
  have hmono : ∀ st', TdInv P.nl P.crit P.delay P.moved_blocks processed st0 st' →
      TdInv P.nl P.crit P.delay P.moved_blocks (processed ++ [q]) st0 st' := by
    rintro st' ⟨U1, U2, U3, U4, U5, U6⟩
    exact ⟨U1, U2, U3, U4, U5, fun p hp => (U6 p hp).imp
      (fun h => ⟨h.1, List.mem_append_left _ h.2⟩)
      (fun h => ⟨h.1, List.mem_append_left _ h.2⟩)⟩
  by_cases hig : P.nl.net_is_ignored (P.nl.pin_net q) = true
  · unfold process_pin
    rw [if_pos hig]
    exact hmono st ⟨T1, T2, T3, T4, T5, T6⟩
  · unfold process_pin
    rw [if_neg hig, if_pos htd]
    obtain ⟨f1, f2, f3, f4, f5, f6, f7, f8, f9, f10⟩ :=
      record_affected_net_fields (P.nl.pin_net q) st
    obtain ⟨g1, g2, g3, g4, g5, g6, g7, g8, g9, g10, g11, g12, g13⟩ :=
      update_net_bb_fields P (P.nl.pin_net q) q (record_affected_net (P.nl.pin_net q) st)
    set st2 := update_net_bb P (P.nl.pin_net q) q (record_affected_net (P.nl.pin_net q) st)
    have e_ap : st2.affected_pins = st.affected_pins := g7.trans f5
    have e_ctc : st2.connection_timing_cost = st.connection_timing_cost := g5.trans f3
    have e_td : st2.timing_delta_c = st.timing_delta_c := g8.trans f6
    have e_pctc : st2.proposed_connection_timing_cost
        = st.proposed_connection_timing_cost := g6.trans f4
    unfold update_td_delta_costs
    by_cases hdrv : P.nl.pin_type q = .DRIVER
    · rw [if_pos hdrv]
      have hq0 : P.nl.net_pin (P.nl.pin_net q) 0 = q := wf.driver_eq q hdrv
      have hdb : driven_by_moved_block P.nl P.moved_blocks (P.nl.pin_net q) = true := by
        rw [driven_iff]
        obtain ⟨b, hb, hqb⟩ := hq_blk
        rw [wf.driver_block_eq, hq0, wf.pin_block_mem b q hqb]
        exact hb
      have hold : ∀ p ∈ st.affected_pins, P.nl.pin_net p ≠ P.nl.pin_net q := by
        intro p hp hcontra
        rcases T6 p hp with ⟨_, h2⟩ | ⟨h1, _⟩
        · rw [hcontra, hq0] at h2
          exact hqp h2
        · rw [hcontra] at h1
          rw [h1] at hdb
          cases hdb
      obtain ⟨⟨_, _, _, _, _, e6, _, _⟩, eap, edelta, epcd, epctc⟩ :=
        td_driver_foldl P.crit P.delay (P.nl.pin_net q) (P.nl.net_pin (P.nl.pin_net q))
          (List.range' 1 (P.nl.net_num_pins (P.nl.pin_net q) - 1)) st2
      refine ⟨?_, e6.trans (e_ctc.trans T2), ?_, ?_, ?_, ?_⟩
      · rw [eap, e_ap]
        unfold TdPairs
        rw [List.map_append, List.nodup_append]
        refine ⟨T1, ?_, ?_⟩
        · have hm : (((List.range' 1 (P.nl.net_num_pins (P.nl.pin_net q) - 1)).map
                (P.nl.net_pin (P.nl.pin_net q))).map
                  (fun p => (P.nl.pin_net p, P.nl.pin_net_index p)))
              = (List.range' 1 (P.nl.net_num_pins (P.nl.pin_net q) - 1)).map
                  (fun i => (P.nl.pin_net q, i)) := by
            rw [List.map_map]
            refine List.map_congr_left ?_
            intro i hi
            obtain ⟨_, hi2⟩ := mem_sink_range hi
            simp only [Function.comp_apply]
            rw [wf.net_pin_net _ i hi2, wf.net_pin_index _ i hi2]
          rw [hm]
          refine List.Nodup.map ?_ (List.nodup_range' _ _)
          intro a b h
          exact (Prod.ext_iff.mp h).2
        · intro x hx hx'
          obtain ⟨p, hp, rfl⟩ := List.mem_map.mp hx
          obtain ⟨p', hp', hxi⟩ := List.mem_map.mp hx'
          obtain ⟨i, hi, rfl⟩ := List.mem_map.mp hp'
          obtain ⟨_, hi2⟩ := mem_sink_range hi
          have h1 := (Prod.ext_iff.mp hxi).1
          rw [wf.net_pin_net _ i hi2] at h1
          exact hold p hp h1.symm
      · rw [edelta, e_td, e_ctc, T2, T3, eap, e_ap, List.map_append, List.sum_append,
          List.map_map]
        have hmaps : List.map ((fun p => P.crit (P.nl.pin_net p) (P.nl.pin_net_index p)
              * P.delay (P.nl.pin_net p) (P.nl.pin_net_index p)
              - st0.connection_timing_cost (P.nl.pin_net p) (P.nl.pin_net_index p))
            ∘ P.nl.net_pin (P.nl.pin_net q))
            (List.range' 1 (P.nl.net_num_pins (P.nl.pin_net q) - 1))
            = List.map (fun i => P.crit (P.nl.pin_net q) i * P.delay (P.nl.pin_net q) i
                - st0.connection_timing_cost (P.nl.pin_net q) i)
              (List.range' 1 (P.nl.net_num_pins (P.nl.pin_net q) - 1)) := by
          refine List.map_congr_left ?_
          intro i hi
          obtain ⟨_, hi2⟩ := mem_sink_range hi
          simp only [Function.comp_apply]
          rw [wf.net_pin_net _ i hi2, wf.net_pin_index _ i hi2]
        rw [hmaps]
        ring
      · intro p hp
        rw [eap, e_ap, List.mem_append] at hp
        rcases hp with hp | hp
        · rw [epctc, if_neg (fun hc => hold p hp hc.1), e_pctc]
          exact T4 p hp
        · obtain ⟨i, hi, rfl⟩ := List.mem_map.mp hp
          obtain ⟨_, hi2⟩ := mem_sink_range hi
          rw [wf.net_pin_net _ i hi2, wf.net_pin_index _ i hi2, epctc,
            if_pos ⟨rfl, hi⟩]
      · intro p hp
        rw [eap, e_ap, List.mem_append] at hp
        rcases hp with hp | hp
        · exact T5 p hp
        · obtain ⟨i, hi, rfl⟩ := List.mem_map.mp hp
          obtain ⟨hi1, hi2⟩ := mem_sink_range hi
          rw [wf.net_pin_net _ i hi2, wf.net_pin_index _ i hi2]
          exact ⟨rfl, hi1, hi2⟩
      · intro p hp
        rw [eap, e_ap, List.mem_append] at hp
        rcases hp with hp | hp
        · exact (T6 p hp).imp (fun h => ⟨h.1, List.mem_append_left _ h.2⟩)
            (fun h => ⟨h.1, List.mem_append_left _ h.2⟩)
        · obtain ⟨i, hi, rfl⟩ := List.mem_map.mp hp
          obtain ⟨_, hi2⟩ := mem_sink_range hi
          left
          rw [wf.net_pin_net _ i hi2]
          refine ⟨hdb, ?_⟩
          rw [hq0]
          exact List.mem_append_right _ (List.mem_singleton_self _)
    · rw [if_neg hdrv]
      have hsk : P.nl.pin_type q = .SINK := by
        cases hpt : P.nl.pin_type q
        · exact absurd hpt hdrv
        · rfl
      obtain ⟨hc1, hc2, hc3⟩ := wf.sink_canonical q hsk
      by_cases hdb : driven_by_moved_block P.nl P.moved_blocks (P.nl.pin_net q) = true
      · rw [if_pos hdb]
        refine hmono st2 ⟨?_, e_ctc.trans T2, ?_, ?_, ?_, ?_⟩
        · rw [e_ap]
          exact T1
        · rw [e_td, e_ap]
          exact T3
        · intro p hp
          rw [e_ap] at hp
          rw [e_pctc]
          exact T4 p hp
        · intro p hp
          rw [e_ap] at hp
          exact T5 p hp
        · intro p hp
          rw [e_ap] at hp
          exact T6 p hp
      · rw [if_neg hdb]
        have hdb' : driven_by_moved_block P.nl P.moved_blocks (P.nl.pin_net q) = false :=
          not_ignored_false hdb
        have hfresh : ∀ p ∈ st.affected_pins,
            ¬ (P.nl.pin_net p = P.nl.pin_net q ∧
              P.nl.pin_net_index p = P.nl.pin_net_index q) := by
          rintro p hp ⟨h1, h2⟩
          rcases T6 p hp with ⟨hd, _⟩ | ⟨_, hproc⟩
          · rw [h1] at hd
            rw [hdb'] at hd
            cases hd
          · have hcan := (T5 p hp).1
            rw [h1, h2, hc3] at hcan
            rw [← hcan] at hproc
            exact hqp hproc
        refine ⟨?_, e_ctc.trans T2, ?_, ?_, ?_, ?_⟩
        · show (TdPairs P.nl (st2.affected_pins ++ [q])).Nodup
          rw [e_ap]
          unfold TdPairs
          rw [List.map_append, List.nodup_append]
          refine ⟨T1, List.nodup_singleton _, ?_⟩
          intro x hx hx'
          obtain ⟨p, hp, rfl⟩ := List.mem_map.mp hx
          rw [List.map_singleton, List.mem_singleton] at hx'
          exact hfresh p hp (Prod.ext_iff.mp hx')
        · show st2.timing_delta_c
              + (P.crit (P.nl.pin_net q) (P.nl.pin_net_index q)
                  * P.delay (P.nl.pin_net q) (P.nl.pin_net_index q)
                - st2.connection_timing_cost (P.nl.pin_net q) (P.nl.pin_net_index q))
            = st0.timing_delta_c + ((st2.affected_pins ++ [q]).map fun p =>
                P.crit (P.nl.pin_net p) (P.nl.pin_net_index p)
                  * P.delay (P.nl.pin_net p) (P.nl.pin_net_index p)
                - st0.connection_timing_cost (P.nl.pin_net p) (P.nl.pin_net_index p)).sum
          rw [e_td, e_ctc, T2, T3, e_ap, List.map_append, List.sum_append,
            List.map_singleton, List.sum_singleton]
          ring
        · intro p hp
          have hp2 : p ∈ st.affected_pins ++ [q] := by
            have hp1 : p ∈ st2.affected_pins ++ [q] := hp
            rwa [e_ap] at hp1
          rw [List.mem_append, List.mem_singleton] at hp2
          show (if P.nl.pin_net p = P.nl.pin_net q ∧
                P.nl.pin_net_index p = P.nl.pin_net_index q
              then some (P.crit (P.nl.pin_net q) (P.nl.pin_net_index q)
                * P.delay (P.nl.pin_net q) (P.nl.pin_net_index q))
              else st2.proposed_connection_timing_cost (P.nl.pin_net p) (P.nl.pin_net_index p))
            = some (P.crit (P.nl.pin_net p) (P.nl.pin_net_index p)
                * P.delay (P.nl.pin_net p) (P.nl.pin_net_index p))
          rcases hp2 with hp2 | rfl
          · rw [if_neg (hfresh p hp2), e_pctc]
            exact T4 p hp2
          · rw [if_pos ⟨rfl, rfl⟩]
        · intro p hp
          have hp2 : p ∈ st.affected_pins ++ [q] := by
            have hp1 : p ∈ st2.affected_pins ++ [q] := hp
            rwa [e_ap] at hp1
          rw [List.mem_append, List.mem_singleton] at hp2
          rcases hp2 with hp2 | rfl
          · exact T5 p hp2
          · exact ⟨hc3, hc1, hc2⟩
        · intro p hp
          have hp2 : p ∈ st.affected_pins ++ [q] := by
            have hp1 : p ∈ st2.affected_pins ++ [q] := hp
            rwa [e_ap] at hp1
          rw [List.mem_append, List.mem_singleton] at hp2
          rcases hp2 with hp2 | rfl
          · exact (T6 p hp2).imp (fun h => ⟨h.1, List.mem_append_left _ h.2⟩)
              (fun h => ⟨h.1, List.mem_append_left _ h.2⟩)
          · right
            exact ⟨hdb', List.mem_append_right _ (List.mem_singleton_self _)⟩

/-- The timing-delta invariant is preserved by the whole pin walk. -/
theorem TdInv_foldl (P : TrialParams) (wf : NetlistWF P.nl)
    (htd : P.timing_driven = true) (st0 : TrialState) :
    ∀ (L : List ℕ) (processed : List ℕ) (st : TrialState),
      (∀ p ∈ L, ∃ b ∈ P.moved_blocks, p ∈ P.nl.block_pins b) →
      (processed ++ L).Nodup →
      TdInv P.nl P.crit P.delay P.moved_blocks processed st0 st →
      TdInv P.nl P.crit P.delay P.moved_blocks (processed ++ L) st0
        (L.foldl (process_pin P) st)
  | [], processed, st, _, _, h => by
    rw [List.append_nil]
    exact h
  | q :: L, processed, st, hL, hnd, h => by
    rw [List.foldl_cons]
    have hqp : q ∉ processed := by
      rw [List.nodup_append] at hnd
      intro hc
      exact hnd.2.2 hc (List.mem_cons_self _ _)
    have hnd' : ((processed ++ [q]) ++ L).Nodup := by
      rw [List.append_assoc]
      exact hnd
    have h2 := TdInv_foldl P wf htd st0 L (processed ++ [q]) (process_pin P st q)
      (fun p hp => hL p (List.mem_cons_of_mem _ hp)) hnd'
      (TdInv_process_pin P wf htd processed st0 st q
        (hL q (List.mem_cons_self _ _)) hqp h)
    rw [List.append_assoc] at h2
    exact h2

/-- **C5.** The three-way pin classification of `update_td_delta_costs`
and the once-per-connection accounting of a trial's timing delta: a moved
driver pin recomputes the proposed delay and timing cost of every sink
index `s ≥ 1` of its net, accumulates each cost difference and appends
each sink pin; a moved sink pin whose net's driver block also moved is
skipped entirely; any other moved sink pin recomputes, accumulates and
appends only its own connection; and over the whole affected-net walk
started from an empty `affected_pins` list, the `(net, sink)` pairs of
`affected_pins` are pairwise distinct — so the accumulated timing delta
is a sum with exactly one term per touched connection. -/
theorem update_td_delta_costs_spec (P : TrialParams) (wf : NetlistWF P.nl)
    (htd : P.timing_driven = true) (st0 : TrialState)
    (hap0 : st0.affected_pins = []) (hmvd : P.moved_blocks.Nodup) :
    (∀ pin st, P.nl.pin_type pin = .DRIVER →
      (update_td_delta_costs P.nl P.crit P.delay P.moved_blocks
          (P.nl.pin_net pin) pin st).affected_pins
        = st.affected_pins
          ++ (List.range' 1 (P.nl.net_num_pins (P.nl.pin_net pin) - 1)).map
              (P.nl.net_pin (P.nl.pin_net pin)) ∧
      (update_td_delta_costs P.nl P.crit P.delay P.moved_blocks
          (P.nl.pin_net pin) pin st).timing_delta_c
        = st.timing_delta_c
          + ((List.range' 1 (P.nl.net_num_pins (P.nl.pin_net pin) - 1)).map fun i =>
              P.crit (P.nl.pin_net pin) i * P.delay (P.nl.pin_net pin) i
                - st.connection_timing_cost (P.nl.pin_net pin) i).sum ∧
      (∀ n i, (update_td_delta_costs P.nl P.crit P.delay P.moved_blocks
            (P.nl.pin_net pin) pin st).proposed_connection_delay n i
          = if n = P.nl.pin_net pin ∧
                i ∈ List.range' 1 (P.nl.net_num_pins (P.nl.pin_net pin) - 1)
            then some (P.delay (P.nl.pin_net pin) i)
            else st.proposed_connection_delay n i) ∧
      (∀ n i, (update_td_delta_costs P.nl P.crit P.delay P.moved_blocks
            (P.nl.pin_net pin) pin st).proposed_connection_timing_cost n i
          = if n = P.nl.pin_net pin ∧
                i ∈ List.range' 1 (P.nl.net_num_pins (P.nl.pin_net pin) - 1)
            then some (P.crit (P.nl.pin_net pin) i * P.delay (P.nl.pin_net pin) i)
            else st.proposed_connection_timing_cost n i)) ∧
    (∀ pin st, P.nl.pin_type pin ≠ .DRIVER →
      driven_by_moved_block P.nl P.moved_blocks (P.nl.pin_net pin) = true →
      update_td_delta_costs P.nl P.crit P.delay P.moved_blocks
        (P.nl.pin_net pin) pin st = st) ∧
    (∀ pin st, P.nl.pin_type pin ≠ .DRIVER →
      driven_by_moved_block P.nl P.moved_blocks (P.nl.pin_net pin) = false →
      (update_td_delta_costs P.nl P.crit P.delay P.moved_blocks
          (P.nl.pin_net pin) pin st).affected_pins = st.affected_pins ++ [pin] ∧
      (update_td_delta_costs P.nl P.crit P.delay P.moved_blocks
          (P.nl.pin_net pin) pin st).timing_delta_c
        = st.timing_delta_c
          + (P.crit (P.nl.pin_net pin) (P.nl.pin_net_index pin)
              * P.delay (P.nl.pin_net pin) (P.nl.pin_net_index pin)
            - st.connection_timing_cost (P.nl.pin_net pin) (P.nl.pin_net_index pin)) ∧
      (∀ n i, (update_td_delta_costs P.nl P.crit P.delay P.moved_blocks
            (P.nl.pin_net pin) pin st).proposed_connection_delay n i
          = if n = P.nl.pin_net pin ∧ i = P.nl.pin_net_index pin
            then some (P.delay (P.nl.pin_net pin) (P.nl.pin_net_index pin))
            else st.proposed_connection_delay n i) ∧
      (∀ n i, (update_td_delta_costs P.nl P.crit P.delay P.moved_blocks
            (P.nl.pin_net pin) pin st).proposed_connection_timing_cost n i
          = if n = P.nl.pin_net pin ∧ i = P.nl.pin_net_index pin
            then some (P.crit (P.nl.pin_net pin) (P.nl.pin_net_index pin)
              * P.delay (P.nl.pin_net pin) (P.nl.pin_net_index pin))
            else st.proposed_connection_timing_cost n i)) ∧
    ((TdPairs P.nl (process_blocks P st0).affected_pins).Nodup ∧
      (process_blocks P st0).timing_delta_c = st0.timing_delta_c
        + ((process_blocks P st0).affected_pins.map fun p =>
            P.crit (P.nl.pin_net p) (P.nl.pin_net_index p)
              * P.delay (P.nl.pin_net p) (P.nl.pin_net_index p)
              - st0.connection_timing_cost (P.nl.pin_net p) (P.nl.pin_net_index p)).sum) := by
  refine ⟨?_, ?_, ?_, ?_⟩
  · intro pin st hdrv
    unfold update_td_delta_costs
    rw [if_pos hdrv]
    obtain ⟨_, eap, edelta, epcd, epctc⟩ :=
      td_driver_foldl P.crit P.delay (P.nl.pin_net pin) (P.nl.net_pin (P.nl.pin_net pin))
        (List.range' 1 (P.nl.net_num_pins (P.nl.pin_net pin) - 1)) st
    exact ⟨eap, edelta, epcd, epctc⟩
  · intro pin st hdrv hdb
    unfold update_td_delta_costs
    rw [if_neg hdrv, if_pos hdb]
  · intro pin st hdrv hdb
    unfold update_td_delta_costs
    rw [if_neg hdrv, if_neg (by rw [hdb]; exact Bool.false_ne_true)]
    exact ⟨rfl, rfl, fun n i => rfl, fun n i => rfl⟩
  · have hflat : process_blocks P st0
        = (P.moved_blocks.flatMap P.nl.block_pins).foldl (process_pin P) st0 :=
      foldl_flatMap P.nl.block_pins (process_pin P) P.moved_blocks st0
    rw [hflat]
    have h0 : TdInv P.nl P.crit P.delay P.moved_blocks [] st0 st0 := by
      refine ⟨?_, rfl, ?_, ?_, ?_, ?_⟩
      · rw [hap0]
        exact List.nodup_nil
      · rw [hap0]
        simp
      · intro p hp
        rw [hap0] at hp
        cases hp
      · intro p hp
        rw [hap0] at hp
        cases hp
      · intro p hp
        rw [hap0] at hp
        cases hp
    have hres := TdInv_foldl P wf htd st0 (P.moved_blocks.flatMap P.nl.block_pins) [] st0
      (fun p hp => by
        obtain ⟨b, hb, hpb⟩ := List.mem_flatMap.mp hp
        exact ⟨b, hb, hpb⟩)
      (by rw [List.nil_append]; exact flat_pins_nodup P.nl wf P.moved_blocks hmvd)
      h0
    exact ⟨hres.1, hres.2.2.1⟩

/-- Evaluation of `update_td_delta_costs_spec` on the concrete netlist:
pin 0 is `wit_nl`'s moved driver (its sink list is appended), pin 1 is a
sink whose driver block moved (skipped), and the whole walk's affected
pairs are duplicate-free with the delta summed once per connection. -/
theorem update_td_delta_costs_spec_witness :
    (update_td_delta_costs wit_P.nl wit_P.crit wit_P.delay wit_P.moved_blocks
        (wit_P.nl.pin_net 0) 0 wit_st0).affected_pins
      = wit_st0.affected_pins
        ++ (List.range' 1 (wit_P.nl.net_num_pins (wit_P.nl.pin_net 0) - 1)).map
            (wit_P.nl.net_pin (wit_P.nl.pin_net 0)) ∧
    update_td_delta_costs wit_P.nl wit_P.crit wit_P.delay wit_P.moved_blocks
        (wit_P.nl.pin_net 1) 1 wit_st0 = wit_st0 ∧
    (TdPairs wit_P.nl (process_blocks wit_P wit_st0).affected_pins).Nodup ∧
    (process_blocks wit_P wit_st0).timing_delta_c = wit_st0.timing_delta_c
      + ((process_blocks wit_P wit_st0).affected_pins.map fun p =>
          wit_P.crit (wit_P.nl.pin_net p) (wit_P.nl.pin_net_index p)
            * wit_P.delay (wit_P.nl.pin_net p) (wit_P.nl.pin_net_index p)
            - wit_st0.connection_timing_cost (wit_P.nl.pin_net p)
                (wit_P.nl.pin_net_index p)).sum := by
  obtain ⟨ha, hb, _, hd⟩ :=
    update_td_delta_costs_spec wit_P wit_nl_wf rfl wit_st0 rfl (by decide)
  exact ⟨(ha 0 wit_st0 (by decide)).1, hb 1 wit_st0 (by decide) (by decide),
    hd.1, hd.2⟩

end VtrPlace
